import Mathlib

/-!
Shallow embedding of the testsmith resolution pipeline (Rust sources under
src/) and proofs about it.  Paths and file contents are modelled as `List Char`
(Lean strings are always valid Unicode, so the invalid-UTF-8 error branches of
the original code cannot arise).  The operating-system filesystem (manifests,
marker files, directories, modification times) and the `FileSystem`
collaborator (the in-memory backend used by the generator) are modelled as
finite association lists inside a `World`.
-/

deriving instance DecidableEq for Except

namespace Testsmith

/-- The characters of a string literal. -/
def chars (s : String) : List Char := s.data

/-- Models Rust `str::starts_with` on character lists. -/
def startsWithL (pat s : List Char) : Bool := pat.isPrefixOf s

/-- Models Rust `str::ends_with` on character lists. -/
def endsWithL (pat s : List Char) : Bool := pat.reverse.isPrefixOf s.reverse

/-- Models Rust `str::contains` (substring containment) on character lists. -/
def hasSubstr (pat : List Char) : List Char → Bool
  | [] => startsWithL pat []
  | c :: rest => startsWithL pat (c :: rest) || hasSubstr pat rest

/-- Fuel-driven worker for `replaceAll`; the fuel is bounded by the length of
the scanned list, which strictly decreases at every step. -/
def replaceAllFuel (pat rep : List Char) : Nat → List Char → List Char
  | _, [] => []
  | 0, s => s
  | fuel + 1, c :: rest =>
    if startsWithL pat (c :: rest) ∧ pat ≠ [] then
      rep ++ replaceAllFuel pat rep fuel (rest.drop (pat.length - 1))
    else
      c :: replaceAllFuel pat rep fuel rest

/-- Models Rust `str::replace`: replaces every non-overlapping occurrence of
`pat`, scanning left to right. -/
def replaceAll (pat rep s : List Char) : List Char :=
  replaceAllFuel pat rep s.length s

/-- Fuel-driven worker for `trimEndMatches`; each iteration shortens the list
by at least one character, so `s.length + 1` fuel always suffices. -/
def trimEndFuel (pat : List Char) : Nat → List Char → List Char
  | 0, s => s
  | fuel + 1, s =>
    if endsWithL pat s ∧ pat ≠ [] then
      trimEndFuel pat fuel (s.take (s.length - pat.length))
    else s

/-- Models Rust `str::trim_end_matches`: repeatedly removes the suffix `pat`. -/
def trimEndMatches (pat s : List Char) : List Char :=
  trimEndFuel pat (s.length + 1) s

/-- Models Rust `str::rfind` for a single-character pattern: the index of the
last occurrence. -/
def rfindChar (c : Char) : List Char → Option Nat
  | [] => none
  | a :: rest =>
    match rfindChar c rest with
    | some i => some (i + 1)
    | none => if a = c then some 0 else none

/-- Split a character list on a separator character (no separator collapsing:
`splitOnChar '/' "a//b"` gives an empty middle segment). -/
def splitOnChar (c : Char) : List Char → List (List Char)
  | [] => [[]]
  | a :: rest =>
    if a = c then [] :: splitOnChar c rest
    else
      match splitOnChar c rest with
      | seg :: segs => (a :: seg) :: segs
      | [] => [[a]]

/-- Join path segments with `'/'` separators (inverse of `splitOnChar '/'`
on well-formed segment lists). -/
def joinSegs : List (List Char) → List Char
  | [] => []
  | [s] => s
  | s :: rest => s ++ '/' :: joinSegs rest

/-- Split a path at its last `'/'`: models `Path::parent` (first component,
with `""` when there is no separator, as used after `unwrap_or`) paired with
the trailing component. -/
def parentAndName (s : List Char) : List Char × List Char :=
  match rfindChar '/' s with
  | some i => (s.take i, s.drop (i + 1))
  | none => ([], s)

/-- Models `Path::file_name` on the cleaned paths produced by the resolver:
the component after the last separator, unless it is empty or a `.`/`..`
component. -/
def fileNameOf (s : List Char) : Option (List Char) :=
  let n := (parentAndName s).2
  if n = [] ∨ n = chars "." ∨ n = chars ".." then none else some n

/-- Split a filename at its last dot, the extension keeping the dot (mirrors
the `rfind('.')` slicing in `MavenResolver::transform_path`); a dotless name
has an empty extension. -/
def splitAtLastDot (f : List Char) : List Char × List Char :=
  match rfindChar '.' f with
  | some i => (f.take i, f.drop i)
  | none => (f, [])

/-- Models `PathBuf::push` of a relative component onto a parent path. -/
def pushPath (parent name : List Char) : List Char :=
  if parent = [] then name else parent ++ '/' :: name

/-- One component step of `path_clean`: append a normal component, resolve a
`..` against the preceding component (keeping leading `..` of relative paths,
dropping `..` at the root of absolute paths). -/
def cleanStep (abs : Bool) (out : List (List Char)) (seg : List Char) : List (List Char) :=
  if seg = chars ".." then
    match out.getLast? with
    | some last => if last = chars ".." then out ++ [seg] else out.dropLast
    | none => if abs then out else out ++ [seg]
  else out ++ [seg]

/-- Models `path_clean::PathClean::clean`: drop empty and `.` components,
resolve `..` components via `cleanStep`, emitting `.` for an empty relative
result. -/
def pathClean (s : List Char) : List Char :=
  let abs := startsWithL (chars "/") s
  let segs := (splitOnChar '/' s).filter (fun seg => ¬(seg = [] ∨ seg = chars "."))
  let out := segs.foldl (cleanStep abs) []
  if abs then '/' :: joinSegs out
  else if out = [] then chars "." else joinSegs out

/-- Models `Path::parent` as an `Option` (`none` at the filesystem root). -/
def parentOf (s : List Char) : Option (List Char) :=
  if s = [] then none
  else if s = chars "/" then none
  else
    match rfindChar '/' s with
    | none => some []
    | some 0 => some (chars "/")
    | some i => some (s.take i)

/-- Models `Path::join` with a relative filename. -/
def joinUnder (dir file : List Char) : List Char :=
  if dir = [] then file
  else if endsWithL (chars "/") dir then dir ++ file
  else dir ++ '/' :: file

/-- Models Rust `str::lines`: split on `'\n'`, dropping a final empty line and
stripping one trailing `'\r'` per line. -/
def linesOf (s : List Char) : List (List Char) :=
  if s = [] then []
  else
    let parts := splitOnChar '\n' s
    let parts := if endsWithL (chars "\n") s then parts.dropLast else parts
    parts.map (fun l => if endsWithL (chars "\r") l then l.dropLast else l)

/-! ## Data model: enumerations and errors (src/cli.rs, src/error.rs) -/

/-- The `Language` enumeration of `src/cli.rs`. -/
inductive Language where
  | Java | Rust | Python | JavaScript | TypeScript
deriving DecidableEq

/-- The `Framework` enumeration of `src/cli.rs`. -/
inductive Framework where
  | JUnit | JUnit4 | TestNG | Native | Jest | Pytest
deriving DecidableEq

/-- The `StructureType` enumeration of `src/cli.rs`. -/
inductive StructureType where
  | Maven | SameFile | Gradle | Flat
deriving DecidableEq

/-- `format!("{:?}", language)`, the debug form used as the cache key. -/
def languageName : Language → String
  | .Java => "Java"
  | .Rust => "Rust"
  | .Python => "Python"
  | .JavaScript => "JavaScript"
  | .TypeScript => "TypeScript"

/-- `format!("{:?}", framework)`, the debug form stored in the cache. -/
def frameworkName : Framework → String
  | .JUnit => "JUnit"
  | .JUnit4 => "JUnit4"
  | .TestNG => "TestNG"
  | .Native => "Native"
  | .Jest => "Jest"
  | .Pytest => "Pytest"

/-- `format!("{:?}", structure)`, the debug form stored in the cache. -/
def structTypeName : StructureType → String
  | .Maven => "Maven"
  | .SameFile => "SameFile"
  | .Gradle => "Gradle"
  | .Flat => "Flat"

/-- The error kinds of `src/error.rs` that the modelled core can produce.
`io::Error` payloads are dropped; message strings are kept where the
modelled code builds them. -/
inductive TestsmithError where
  | FileNotFound (path : List Char)
  | InvalidPath (path : List Char) (reason : String)
  | UnsupportedLanguage (language : List Char)
  | InvalidSourceFile (reason : String)
  | InvalidCombination (language framework : String)
  | FileReadError (path : List Char)
  | FileWriteError (path : List Char)
  | ClassNameExtractionError (path : List Char) (reason : String)
  | CacheError (reason : String)
deriving DecidableEq

/-! ## World: OS filesystem, collaborator filesystem, cache store -/

/-- An OS file: its text content and its modification time in seconds since
the epoch (`none` models unreadable metadata). -/
structure OsFile where
  content : List Char
  mtime : Option Nat
deriving DecidableEq

/-- Association-list lookup (models `HashMap::get`). -/
def alookup {α : Type} [DecidableEq α] {β : Type} (key : α) : List (α × β) → Option β
  | [] => none
  | (k, v) :: rest => if k = key then some v else alookup key rest

/-- Association-list insert-or-replace (models `HashMap::insert`). -/
def ainsert {α : Type} [DecidableEq α] {β : Type} (key : α) (val : β) : List (α × β) → List (α × β)
  | [] => [(key, val)]
  | (k, v) :: rest => if k = key then (key, val) :: rest else (k, v) :: ainsert key val rest

/-- Cached data for one language in a project (`LanguageCache` in
src/cache/mod.rs); `structureName` models the `structure` field. -/
structure LanguageCache where
  framework : String
  structureName : String
  last_used : Nat
deriving DecidableEq

/-- The persisted cache: project root path → language name → entry
(`ProjectCache` in src/cache/mod.rs, hash maps modelled as association
lists). -/
def ProjectCache : Type := List (List Char × List (String × LanguageCache))

instance : DecidableEq ProjectCache := by
  unfold ProjectCache
  infer_instance

/-- The state every run reads and writes: the OS filesystem (files with
modification times, directories), the `FileSystem` collaborator's in-memory
store, the persisted cache file, and the current clock. -/
structure World where
  osFiles : List (List Char × OsFile)
  osDirs : List (List Char)
  memFiles : List (List Char × List Char)
  cacheStore : Option ProjectCache
  now : Nat
deriving DecidableEq

/-- `Path::exists` on the OS filesystem. -/
def osExists (w : World) (p : List Char) : Bool :=
  (alookup p w.osFiles).isSome || w.osDirs.contains p

/-- `Path::is_dir` on the OS filesystem. -/
def osIsDir (w : World) (p : List Char) : Bool := w.osDirs.contains p

/-- `fs::read_to_string` on the OS filesystem (`none` models an error). -/
def osReadFile (w : World) (p : List Char) : Option (List Char) :=
  (alookup p w.osFiles).map OsFile.content

/-! ## Cache operations (src/cache/mod.rs) -/

/-- `load_cache` followed by the caller's `unwrap_or_default`: an absent or
unreadable cache file yields the empty cache. -/
def load_cache (w : World) : ProjectCache := w.cacheStore.getD []

/-- `save_cache`: overwrite the persisted cache file (serialization of the
modelled cache cannot fail). -/
def save_cache (w : World) (cache : ProjectCache) : World :=
  { w with cacheStore := some cache }

/-- `update_cache_entry`: fully replace the entry for `(root, language)` with
the given framework/structure and the current timestamp. -/
def update_cache_entry (cache : ProjectCache) (project_root : List Char)
    (language : String) (framework : Framework) (structKind : StructureType)
    (now : Nat) : ProjectCache :=
  let lang_cache : LanguageCache :=
    { framework := frameworkName framework
      structureName := structTypeName structKind
      last_used := now }
  ainsert project_root (ainsert language lang_cache ((alookup project_root cache).getD [])) cache

/-- `get_cache_entry`. -/
def get_cache_entry (cache : ProjectCache) (project_root : List Char)
    (language : String) : Option LanguageCache :=
  (alookup project_root cache).bind (alookup language)

/-- `is_cache_stale`: true when some listed config file under the root exists
and has a modification time strictly greater than `last_used`. -/
def is_cache_stale (w : World) (project_root : List Char) (last_used : Nat)
    (config_files : List String) : Bool :=
  config_files.any fun config_file =>
    let path := joinUnder project_root (chars config_file)
    if osExists w path then
      match alookup path w.osFiles with
      | some fd =>
        match fd.mtime with
        | some mod_time => decide (last_used < mod_time)
        | none => false
      | none => false
    else false

/-! ## Language classification and framework validity
(src/config/language.rs, src/config/framework.rs) -/

/-- Models `Path::extension`: the part of the filename after its last dot;
`none` for dotless names and for a leading dot (hidden files). -/
def extensionOf (p : List Char) : Option (List Char) :=
  match fileNameOf p with
  | none => none
  | some f =>
    match rfindChar '.' f with
    | none => none
    | some 0 => none
    | some i => some (f.drop (i + 1))

/-- `detect_language` of src/config/language.rs. -/
def detect_language (path : List Char) : Except TestsmithError Language :=
  match extensionOf path with
  | none => .error (.InvalidSourceFile "File has no extension")
  | some ext =>
    if ext = chars "java" then .ok .Java
    else if ext = chars "rs" then .ok .Rust
    else if ext = chars "py" then .ok .Python
    else if ext = chars "js" then .ok .JavaScript
    else if ext = chars "ts" then .ok .TypeScript
    else .error (.UnsupportedLanguage ext)

/-- `default_framework_for_language` of src/config/language.rs. -/
def default_framework_for_language : Language → Framework
  | .Java => .JUnit
  | .Rust => .Native
  | .Python => .Pytest
  | .JavaScript => .Jest
  | .TypeScript => .Jest

/-- `is_valid_combination` of src/config/framework.rs. -/
def is_valid_combination (language : Language) (framework : Framework) : Bool :=
  match language with
  | .Java => framework = .JUnit ∨ framework = .JUnit4 ∨ framework = .TestNG
  | .Rust => framework = .Native
  | .Python => framework = .Pytest
  | .JavaScript => framework = .Jest
  | .TypeScript => framework = .Jest

/-- `validate_combination` of src/config/framework.rs. -/
def validate_combination (language : Language) (framework : Framework) :
    Except TestsmithError Unit :=
  if is_valid_combination language framework then .ok ()
  else .error (.InvalidCombination (languageName language) (frameworkName framework))

/-- The validity table as the specification states it (spec section 3): the
frameworks legal per language.  Companion definition for the refinement
claim about `is_valid_combination`. -/
def validityTable (language : Language) (framework : Framework) : Bool :=
  match language, framework with
  | .Java, .JUnit | .Java, .JUnit4 | .Java, .TestNG => true
  | .Rust, .Native => true
  | .Python, .Pytest => true
  | .JavaScript, .Jest => true
  | .TypeScript, .Jest => true
  | _, _ => false

/-! ## Project root location (src/config/project_root.rs and the local
root search of src/config/framework_detector.rs) -/

/-- `config_files_for_language` of src/config/project_root.rs. -/
def config_files_for_language : Language → List String
  | .Java => ["pom.xml", "build.gradle", "build.gradle.kts", "build.sbt"]
  | .Rust => ["Cargo.toml"]
  | .JavaScript | .TypeScript => ["package.json"]
  | .Python => ["pyproject.toml", "setup.py", "requirements.txt"]

/-- The upward walk shared by both project-root searches: return the first
(closest) ancestor directory containing one of the config files.  The fuel
is bounded by the path length; a parent path is strictly shorter than its
child, so the fuel never runs out. -/
def rootLoopFuel (w : World) (config_files : List String) :
    Nat → List Char → Option (List Char)
  | 0, _ => none
  | fuel + 1, current =>
    if config_files.any (fun f => osExists w (joinUnder current (chars f))) then
      some current
    else
      match parentOf current with
      | some parent => if parent = current then none else rootLoopFuel w config_files fuel parent
      | none => none

/-- `find_project_root` of src/config/project_root.rs.  Canonicalization is
modelled as the identity (the code already falls back to the raw path when
canonicalization fails). -/
def find_project_root (w : World) (start_path : List Char) (language : Language) :
    Option (List Char) :=
  let config_files := config_files_for_language language
  let canonical_path := start_path
  match (if osIsDir w canonical_path then some canonical_path else parentOf canonical_path) with
  | none => none
  | some current => rootLoopFuel w config_files (current.length + 1) current

/-- The private `find_project_root` of src/config/framework_detector.rs,
which looks for a fixed set of five config files. -/
def fd_find_project_root (w : World) (start_path : List Char) : Option (List Char) :=
  let config_files := ["Cargo.toml", "pom.xml", "build.gradle", "build.gradle.kts", "package.json"]
  match (if osIsDir w start_path then some start_path else parentOf start_path) with
  | none => none
  | some current => rootLoopFuel w config_files (current.length + 1) current

/-! ## Framework detection (src/config/framework_detector.rs) -/

/-- `detect_rust_framework`: Rust's test framework is built in, so any
readable Cargo.toml yields `Native`. -/
def detect_rust_framework (w : World) (cargo_toml : List Char) : Option Framework :=
  if (osReadFile w cargo_toml).isSome then some .Native else none

/-- `detect_java_maven_framework`: dependency signatures in `pom.xml`, in
priority order JUnit 5 > JUnit 4 > TestNG. -/
def detect_java_maven_framework (w : World) (pom_xml : List Char) : Option Framework :=
  match osReadFile w pom_xml with
  | some content =>
    if hasSubstr (chars "junit-jupiter") content || hasSubstr (chars "org.junit.jupiter") content then
      some .JUnit
    else if hasSubstr (chars "junit:junit") content || hasSubstr (chars "junit</artifactId>") content then
      some .JUnit4
    else if hasSubstr (chars "testng") content || hasSubstr (chars "org.testng") content then
      some .TestNG
    else none
  | none => none

/-- `detect_java_gradle_framework`: dependency signatures in a Gradle build
file. -/
def detect_java_gradle_framework (w : World) (build_gradle : List Char) : Option Framework :=
  match osReadFile w build_gradle with
  | some content =>
    if hasSubstr (chars "org.junit.jupiter") content || hasSubstr (chars "junit-jupiter") content then
      some .JUnit
    else if hasSubstr (chars "useJUnit(\x274") content || hasSubstr (chars "useJUnit(\"4") content then
      some .JUnit4
    else if hasSubstr (chars "junit:junit") content ∧ ¬ hasSubstr (chars "org.junit.jupiter") content then
      some .JUnit4
    else if hasSubstr (chars "org.testng") content || hasSubstr (chars "testng") content then
      some .TestNG
    else none
  | none => none

/-- `detect_js_framework`: a Jest signature in `package.json`. -/
def detect_js_framework (w : World) (package_json : List Char) : Option Framework :=
  match osReadFile w package_json with
  | some content => if hasSubstr (chars "jest") content then some .Jest else none
  | none => none

/-- `detect_framework` of src/config/framework_detector.rs. -/
def detect_framework (w : World) (source_path : List Char) (language : Language) :
    Except TestsmithError (Option Framework) :=
  match fd_find_project_root w source_path with
  | none => .ok none
  | some project_root =>
    match language with
    | .Rust => .ok (detect_rust_framework w (joinUnder project_root (chars "Cargo.toml")))
    | .Java =>
      let pom_xml := joinUnder project_root (chars "pom.xml")
      let from_pom :=
        if osExists w pom_xml then detect_java_maven_framework w pom_xml else none
      match from_pom with
      | some framework => .ok (some framework)
      | none =>
        let build_gradle := joinUnder project_root (chars "build.gradle")
        let from_gradle :=
          if osExists w build_gradle then detect_java_gradle_framework w build_gradle else none
        match from_gradle with
        | some framework => .ok (some framework)
        | none =>
          let build_gradle_kts := joinUnder project_root (chars "build.gradle.kts")
          let from_kts :=
            if osExists w build_gradle_kts then detect_java_gradle_framework w build_gradle_kts
            else none
          match from_kts with
          | some framework => .ok (some framework)
          | none => .ok none
    | .JavaScript | .TypeScript =>
      .ok (detect_js_framework w (joinUnder project_root (chars "package.json")))
    | .Python => .ok none

/-! ## Structure detection (src/config/structure_detector.rs) -/

/-- `detect_java_structure`: Maven layout if both source trees exist, else
Gradle if a Gradle build file exists, else default Maven. -/
def detect_java_structure (w : World) (project_root : List Char) :
    Except TestsmithError StructureType :=
  if osExists w (joinUnder project_root (chars "src/main/java")) ∧
      osExists w (joinUnder project_root (chars "src/test/java")) then
    .ok .Maven
  else if osExists w (joinUnder project_root (chars "build.gradle")) ∨
      osExists w (joinUnder project_root (chars "build.gradle.kts")) then
    .ok .Gradle
  else .ok .Maven

/-- `detect_rust_structure`: always same-file (a `tests/` directory is folded
into the same treatment). -/
def detect_rust_structure (w : World) (project_root : List Char) :
    Except TestsmithError StructureType :=
  if osIsDir w (joinUnder project_root (chars "tests")) then .ok .SameFile
  else .ok .SameFile

/-- `detect_js_structure`: a conventional tests directory yields `Flat`,
otherwise same-file. -/
def detect_js_structure (w : World) (project_root : List Char) :
    Except TestsmithError StructureType :=
  if osIsDir w (joinUnder project_root (chars "__tests__")) then .ok .Flat
  else if osIsDir w (joinUnder project_root (chars "tests")) then .ok .Flat
  else if osIsDir w (joinUnder project_root (chars "test")) then .ok .Flat
  else .ok .SameFile

/-- `detect_python_structure`: a `tests/` or `test/` directory yields `Flat`,
otherwise same-file. -/
def detect_python_structure (w : World) (project_root : List Char) :
    Except TestsmithError StructureType :=
  if osIsDir w (joinUnder project_root (chars "tests")) then .ok .Flat
  else if osIsDir w (joinUnder project_root (chars "test")) then .ok .Flat
  else .ok .SameFile

/-- `detect_structure` of src/config/structure_detector.rs. -/
def detect_structure (w : World) (project_root : List Char) (language : Language) :
    Except TestsmithError StructureType :=
  match language with
  | .Java => detect_java_structure w project_root
  | .Rust => detect_rust_structure w project_root
  | .JavaScript | .TypeScript => detect_js_structure w project_root
  | .Python => detect_python_structure w project_root

/-! ## FileSystem collaborator (src/file_ops.rs, in-memory backend) -/

/-- `FileSystem::file_exists` (memory backend: key present). -/
def fs_file_exists (w : World) (p : List Char) : Bool :=
  (alookup p w.memFiles).isSome

/-- `FileSystem::read_file` (`none` models the read error). -/
def fs_read_file (w : World) (p : List Char) : Option (List Char) :=
  alookup p w.memFiles

/-- `FileSystem::write_file_new`: create or overwrite (directory creation is a
no-op for the in-memory backend). -/
def fs_write_file_new (w : World) (p content : List Char) : World :=
  { w with memFiles := ainsert p content w.memFiles }

/-- `FileSystem::append_to_file`: push a newline then the content onto an
existing file; error when the file does not exist. -/
def fs_append_to_file (w : World) (p content : List Char) :
    Except TestsmithError World :=
  match alookup p w.memFiles with
  | some existing =>
    .ok { w with memFiles := ainsert p (existing ++ '\n' :: content) w.memFiles }
  | none => .error (.FileWriteError p)

/-! ## Path-resolution strategies (src/resolver/maven.rs,
src/resolver/same_file.rs) -/

/-- `MavenResolver::transform_path`: clean the path, require a `src/main`
(or `src\main`) substring, replace it with the test segment, and insert a
`Test` suffix before the extension. -/
def transform_path (source_path : List Char) : Except TestsmithError (List Char) :=
  let normalized := pathClean source_path
  if ¬ (hasSubstr (chars "src/main") normalized || hasSubstr (chars "src\\main") normalized) then
    .error (.InvalidPath source_path "Path does not contain \x27src/main\x27 directory")
  else
    let test_path_str :=
      replaceAll (chars "src\\main") (chars "src\\test")
        (replaceAll (chars "src/main") (chars "src/test") normalized)
    let parent := (parentAndName test_path_str).1
    match fileNameOf test_path_str with
    | none => .error (.InvalidPath source_path "File has no name")
    | some file_name =>
      let (base_name, extension) := splitAtLastDot file_name
      let test_file_name := base_name ++ chars "Test" ++ extension
      .ok (pathClean (pushPath parent test_file_name))

/-- `MavenResolver::resolve_test_path`: the source file must exist through
the collaborator, then the path is transformed. -/
def maven_resolve_test_path (w : World) (source_path : List Char) (_language : Language) :
    Except TestsmithError (List Char) :=
  if ¬ fs_file_exists w source_path then .error (.FileNotFound source_path)
  else transform_path source_path

/-- `SameFileResolver::resolve_test_path`: the test path is the source path
itself, which must exist. -/
def same_file_resolve_test_path (w : World) (source_path : List Char) :
    Except TestsmithError (List Char) :=
  if ¬ fs_file_exists w source_path then .error (.FileNotFound source_path)
  else .ok source_path

/-- The resolver dispatch of `generate` (src/generator.rs): Maven, Gradle and
Flat all use the Maven resolver, SameFile its own. -/
def resolve_test_path (w : World) (structKind : StructureType)
    (source_path : List Char) (language : Language) :
    Except TestsmithError (List Char) :=
  match structKind with
  | .Maven | .Gradle => maven_resolve_test_path w source_path language
  | .SameFile => same_file_resolve_test_path w source_path
  | .Flat => maven_resolve_test_path w source_path language

/-! ## Template engine (src/template) -/

/-- `TemplateContext` of src/template/traits.rs. -/
structure TemplateContext where
  source_file_path : List Char
  test_file_path : List Char
  language : Language
  framework : Framework
  class_name : Option (List Char)
  package_name : Option (List Char)
  module_path : Option (List Char)
deriving DecidableEq

/-- `TemplateContext::new`. -/
def TemplateContext.new (source_file_path test_file_path : List Char)
    (language : Language) (framework : Framework) : TemplateContext :=
  ⟨source_file_path, test_file_path, language, framework, none, none, none⟩

/-- `TemplateContext::with_class_name`. -/
def TemplateContext.with_class_name (ctx : TemplateContext) (n : List Char) : TemplateContext :=
  { ctx with class_name := some n }

/-- `TemplateContext::with_package_name`. -/
def TemplateContext.with_package_name (ctx : TemplateContext) (n : List Char) : TemplateContext :=
  { ctx with package_name := some n }

/-- `\s` of the package-declaration pattern (whitespace inside a line). -/
def isWs (c : Char) : Bool := c = ' ' ∨ c = '\t' ∨ c = '\r'

/-- `[\w\.]` of the package-declaration pattern. -/
def isWordDot (c : Char) : Bool := c.isAlphanum ∨ c = '_' ∨ c = '.'

/-- One line matched against the anchored pattern
`^\s*package\s+([\w\.]+)\s*;` used by `extract_package_name`; returns the
captured package name. -/
def parsePackageLine (line : List Char) : Option (List Char) :=
  let rest := line.dropWhile isWs
  if startsWithL (chars "package") rest then
    let r1 := rest.drop 7
    let r2 := r1.dropWhile isWs
    if r1.length = r2.length then none
    else
      let ident := r2.takeWhile isWordDot
      if ident = [] then none
      else
        let r3 := (r2.drop ident.length).dropWhile isWs
        if startsWithL (chars ";") r3 then some ident else none
  else none

/-- `JavaJunitTemplate::extract_package_name` (also `JavaJunit4Template`'s
identical copy): read the source through the OS filesystem and return the
first package declaration. -/
def extract_package_name (w : World) (source_path : List Char) :
    Except TestsmithError (Option (List Char)) :=
  match osReadFile w source_path with
  | none => .error (.FileReadError source_path)
  | some content => .ok ((linesOf content).findSome? parsePackageLine)

/-- `JavaJunitTemplate::extract_class_name` (also `JavaJunit4Template`'s
identical copy): the filename with a `Test.java` or `.java` suffix
stripped. -/
def extract_class_name (path : List Char) : Except TestsmithError (List Char) :=
  match fileNameOf path with
  | none => .error (.ClassNameExtractionError path "No filename found")
  | some file_name =>
    if endsWithL (chars "Test.java") file_name then
      .ok (trimEndMatches (chars "Test.java") file_name)
    else if endsWithL (chars ".java") file_name then
      .ok (trimEndMatches (chars ".java") file_name)
    else .ok file_name

/-- `RustNativeTemplate::extract_module_name`: strip a `.rs` suffix and
lowercase. -/
def extract_module_name (path : List Char) : Except TestsmithError (List Char) :=
  match fileNameOf path with
  | none => .error (.ClassNameExtractionError path "No filename found")
  | some file_name =>
    let module_name :=
      if endsWithL (chars ".rs") file_name then trimEndMatches (chars ".rs") file_name
      else file_name
    .ok (module_name.map Char.toLower)

/-- `JavaJunitTemplate::generate` (JUnit 5 skeleton). -/
def java_junit_generate (context : TemplateContext) : List Char :=
  let package_part :=
    match context.package_name with
    | some package_name => chars "package " ++ package_name ++ chars ";\n\n"
    | none => []
  let class_name := (context.class_name).getD (chars "Example")
  let test_class_name := class_name ++ chars "Test"
  package_part ++
    chars "import org.junit.jupiter.api.Test;\nimport static org.junit.jupiter.api.Assertions.*;\n\nclass " ++
    test_class_name ++
    chars " \x7b\n    @Test\n    void testExample() \x7b\n        // TODO: Implement test\n    \x7d\n\x7d\n"

/-- `JavaJunit4Template::generate` (JUnit 4 skeleton). -/
def java_junit4_generate (context : TemplateContext) : List Char :=
  let package_part :=
    match context.package_name with
    | some package_name => chars "package " ++ package_name ++ chars ";\n\n"
    | none => []
  let class_name := (context.class_name).getD (chars "Example")
  let test_class_name := class_name ++ chars "Test"
  package_part ++
    chars "import org.junit.Test;\nimport static org.junit.Assert.*;\n\npublic class " ++
    test_class_name ++
    chars " \x7b\n    @Test\n    public void testExample() \x7b\n        // TODO: Implement test\n    \x7d\n\x7d\n"

/-- `RustNativeTemplate::generate`: the fixed test module appended to the
source file (the raw template with its leading newline trimmed). -/
def rust_native_generate : List Char :=
  chars "#[cfg(test)]\nmod tests \x7b\n    use super::*;\n\n    #[test]\n    fn test_example() \x7b\n        // TODO: Implement test\n    \x7d\n\x7d\n"

/-- The three generators registered by `TemplateRegistry::new`. -/
inductive TemplateKind where
  | javaJunit | javaJunit4 | rustNative
deriving DecidableEq

/-- `TemplateRegistry::get_generator`: the fixed registry keyed by
(language, framework). -/
def get_generator (language : Language) (framework : Framework) :
    Except TestsmithError TemplateKind :=
  match language, framework with
  | .Java, .JUnit => .ok .javaJunit
  | .Java, .JUnit4 => .ok .javaJunit4
  | .Rust, .Native => .ok .rustNative
  | _, _ => .error (.InvalidCombination (languageName language) (frameworkName framework))

/-- Dispatch of `TemplateGenerator::generate` over the registered
generators (none of which can fail). -/
def template_generate (kind : TemplateKind) (context : TemplateContext) :
    Except TestsmithError (List Char) :=
  match kind with
  | .javaJunit => .ok (java_junit_generate context)
  | .javaJunit4 => .ok (java_junit4_generate context)
  | .rustNative => .ok rust_native_generate

/-! ## Orchestrator (src/generator.rs) -/

/-- `GeneratorOptions`; `structKind` models the `structure` field. -/
structure GeneratorOptions where
  structKind : StructureType
  language : Option Language
  framework : Option Framework
  create : Bool
  dry_run : Bool

/-- `GeneratorResult` (the path kept as characters; line numbers are small
positive values, so the `i32` is modelled as `Nat`). -/
structure GeneratorResult where
  test_file_path : List Char
  created : Bool
  dry_run : Bool
  line_number : Nat
deriving DecidableEq

/-- The framework-string match of `generate`: decode the cached debug form
back into the enumeration; unrecognized strings decode to `none`. -/
def parse_cached_framework : String → Option Framework
  | "JUnit" => some .JUnit
  | "JUnit4" => some .JUnit4
  | "TestNG" => some .TestNG
  | "Native" => some .Native
  | "Jest" => some .Jest
  | "Pytest" => some .Pytest
  | _ => none

/-- The structure-string match of `generate`: decode the cached debug form,
falling back to the caller's structure value for unrecognized strings. -/
def parse_cached_structure (s : String) (fallback : StructureType) : StructureType :=
  match s with
  | "Maven" => .Maven
  | "Gradle" => .Gradle
  | "SameFile" => .SameFile
  | "Flat" => .Flat
  | _ => fallback

/-- The framework-determination block of `generate`: explicit framework
(validated) > fresh cache entry whose stored string decodes > manifest
detection (validated) > per-language default. -/
def resolveFramework (w : World) (cache : ProjectCache) (project_root : Option (List Char))
    (language_str : String) (source_path : List Char) (language : Language)
    (optFramework : Option Framework) : Except TestsmithError Framework :=
  match optFramework with
  | some fw =>
    match validate_combination language fw with
    | .ok _ => .ok fw
    | .error e => .error e
  | none =>
    let cached_framework : Option Framework :=
      match project_root with
      | some root =>
        match get_cache_entry cache root language_str with
        | some cached_entry =>
          if is_cache_stale w root cached_entry.last_used (config_files_for_language language) then
            none
          else
            parse_cached_framework cached_entry.framework
        | none => none
      | none => none
    match cached_framework with
    | some fw =>
      match validate_combination language fw with
      | .ok _ => .ok fw
      | .error e => .error e
    | none =>
      match detect_framework w source_path language with
      | .error e => .error e
      | .ok (some fw) =>
        match validate_combination language fw with
        | .ok _ => .ok fw
        | .error e => .error e
      | .ok none => .ok (default_framework_for_language language)

/-- The structure-determination block of `generate`: when the caller left the
default (Maven), a cache entry's stored structure string is decoded and used,
and only a cache miss triggers directory-presence detection (with the
caller's value as fallback). -/
def resolveStructure (w : World) (cache : ProjectCache) (project_root : Option (List Char))
    (language_str : String) (language : Language) (optStructure : StructureType) :
    StructureType :=
  if optStructure = .Maven then
    match project_root with
    | some root =>
      match get_cache_entry cache root language_str with
      | some cached_entry => parse_cached_structure cached_entry.structureName optStructure
      | none =>
        match detect_structure w root language with
        | .ok st => st
        | .error _ => optStructure
    | none => optStructure
  else optStructure

/-- The resolution stage of `generate`: language, framework and structure,
followed by the best-effort cache update and save when a project root was
found. -/
def resolveLangFwSt (w : World) (source_path : List Char) (optLang : Option Language)
    (optFw : Option Framework) (optSt : StructureType) :
    Except TestsmithError (Language × Framework × StructureType) × World :=
  match (match optLang with
         | some lang => Except.ok lang
         | none => detect_language source_path) with
  | .error e => (.error e, w)
  | .ok language =>
    let cache := load_cache w
    let project_root := find_project_root w source_path language
    let language_str := languageName language
    match resolveFramework w cache project_root language_str source_path language optFw with
    | .error e => (.error e, w)
    | .ok framework =>
      let structKind := resolveStructure w cache project_root language_str language optSt
      match project_root with
      | some root =>
        (.ok (language, framework, structKind),
          save_cache w (update_cache_entry cache root language_str framework structKind w.now))
      | none => (.ok (language, framework, structKind), w)

/-- Cursor line in an existing test file that already has a test module:
first `#[test]` line, else first `// TODO` line, else 1. -/
def find_test_line (w : World) (test_file_path : List Char) : Nat :=
  match fs_read_file w test_file_path with
  | some content =>
    match (linesOf content).findIdx? (fun line => hasSubstr (chars "#[test]") line) with
    | some idx => idx + 1
    | none =>
      match (linesOf content).findIdx? (fun line => hasSubstr (chars "// TODO") line) with
      | some idx => idx + 1
      | none => 1
  | none => 1

/-- Cursor line in an existing test file without a test module (non-same-file
structures): first TODO-like line, else 1. -/
def find_todo_line (w : World) (test_file_path : List Char) : Nat :=
  match fs_read_file w test_file_path with
  | some content =>
    match (linesOf content).findIdx?
        (fun line => hasSubstr (chars "// TODO") line || hasSubstr (chars "TODO:") line) with
    | some idx => idx + 1
    | none => 1
  | none => 1

/-- Cursor line for freshly generated content: for same-file structures the
existing line count plus the TODO offset within the new content, otherwise
the TODO offset within the new file. -/
def creation_line (w : World) (structKind : StructureType)
    (test_file_path content : List Char) : Nat :=
  if structKind = .SameFile then
    match fs_read_file w test_file_path with
    | some existing_content =>
      let existing_lines := (linesOf existing_content).length
      let todo_offset :=
        match (linesOf content).findIdx? (fun line => hasSubstr (chars "// TODO") line) with
        | some idx => idx + 1
        | none => 1
      existing_lines + todo_offset
    | none => 1
  else
    match (linesOf content).findIdx? (fun line => hasSubstr (chars "// TODO") line) with
    | some idx => idx + 1
    | none => 1

/-- The Java metadata block of `generate`: package and class name are added
to the context when their extraction succeeds. -/
def buildContext (w : World) (source_path test_file_path : List Char)
    (language : Language) (framework : Framework) : TemplateContext :=
  let context := TemplateContext.new source_path test_file_path language framework
  if language = .Java then
    let context :=
      match extract_package_name w source_path with
      | .ok (some pkg) => context.with_package_name pkg
      | .ok none => context
      | .error _ => context
    match extract_class_name source_path with
    | .ok class_name => context.with_class_name class_name
    | .error _ => context
  else context

/-- What the inspection stage of `generate` decides: report an existing test
location, or hand the write step a path, generated content, cursor line and
the resolved structure. -/
inductive PrepOutcome where
  | already (path : List Char) (line : Nat)
  | toCreate (path content : List Char) (line : Nat) (structKind : StructureType)
deriving DecidableEq

/-- The inspection/generation stage of `generate`: resolve the test path,
classify the existing-file state, and either report the existing location,
fail for a missing file with `create` off, or produce the content to write. -/
def prepInspect (w : World) (source_path : List Char) (language : Language)
    (framework : Framework) (structKind : StructureType) (create : Bool) :
    Except TestsmithError PrepOutcome :=
  match resolve_test_path w structKind source_path language with
  | .error e => .error e
  | .ok test_file_path =>
    let (test_exists, has_test_module) :=
      if structKind = .SameFile then
        match fs_read_file w test_file_path with
        | some content => (true, hasSubstr (chars "#[cfg(test)]") content)
        | none => (false, false)
      else (fs_file_exists w test_file_path, false)
    if test_exists ∧ has_test_module then
      .ok (.already test_file_path (find_test_line w test_file_path))
    else if test_exists ∧ ¬ has_test_module ∧ structKind ≠ .SameFile then
      .ok (.already test_file_path (find_todo_line w test_file_path))
    else if ¬ create then
      .error (.FileNotFound test_file_path)
    else
      match get_generator language framework with
      | .error e => .error e
      | .ok generator =>
        let context := buildContext w source_path test_file_path language framework
        match template_generate generator context with
        | .error e => .error e
        | .ok content =>
          .ok (.toCreate test_file_path content
                (creation_line w structKind test_file_path content) structKind)

/-- Everything `generate` does before consulting the dry-run flag: the
resolution stage (with its cache save) followed by the inspection stage. -/
def generatePrep (w : World) (source_path : List Char) (optLang : Option Language)
    (optFw : Option Framework) (optSt : StructureType) (create : Bool) :
    Except TestsmithError PrepOutcome × World :=
  match resolveLangFwSt w source_path optLang optFw optSt with
  | (.error e, w1) => (.error e, w1)
  | (.ok (language, framework, structKind), w1) =>
    (prepInspect w1 source_path language framework structKind create, w1)

/-- `generate` of src/generator.rs: run the preparation stages, then perform
(or, for a dry run, skip) the final write — append for same-file structures,
create-new otherwise. -/
def generate (w : World) (source_path : List Char) (options : GeneratorOptions) :
    Except TestsmithError GeneratorResult × World :=
  match generatePrep w source_path options.language options.framework
      options.structKind options.create with
  | (.error e, w1) => (.error e, w1)
  | (.ok (.already path line), w1) =>
    (.ok ⟨path, false, false, line⟩, w1)
  | (.ok (.toCreate path content line structKind), w1) =>
    if ¬ options.dry_run then
      if structKind = .SameFile then
        match fs_append_to_file w1 path content with
        | .ok w2 => (.ok ⟨path, true, options.dry_run, line⟩, w2)
        | .error e => (.error e, w1)
      else
        (.ok ⟨path, true, options.dry_run, line⟩, fs_write_file_new w1 path content)
    else
      (.ok ⟨path, true, options.dry_run, line⟩, w1)

/-! ## Lemmas about the string primitives -/

theorem startsWithL_iff {pat s : List Char} : startsWithL pat s = true ↔ pat <+: s := by
  simp [startsWithL, List.isPrefixOf_iff_prefix]

theorem endsWithL_iff {pat s : List Char} : endsWithL pat s = true ↔ pat <:+ s := by
  simp [endsWithL, List.isPrefixOf_iff_prefix, List.reverse_prefix]

theorem startsWithL_append_self (pat t : List Char) : startsWithL pat (pat ++ t) = true :=
  startsWithL_iff.mpr (List.prefix_append pat t)

theorem endsWithL_append_self (pat s : List Char) : endsWithL pat (s ++ pat) = true :=
  endsWithL_iff.mpr (List.suffix_append s pat)

theorem hasSubstr_of_startsWith {pat s : List Char} (h : startsWithL pat s = true) :
    hasSubstr pat s = true := by
  cases s with
  | nil => simpa [hasSubstr] using h
  | cons c rest => simp [hasSubstr, h]

theorem hasSubstr_cons_of {pat rest : List Char} (c : Char)
    (h : hasSubstr pat rest = true) : hasSubstr pat (c :: rest) = true := by
  simp [hasSubstr, h]

theorem hasSubstr_middle (pat A B : List Char) : hasSubstr pat (A ++ pat ++ B) = true := by
  rw [List.append_assoc]
  induction A with
  | nil => exact hasSubstr_of_startsWith (startsWithL_append_self pat B)
  | cons a A ih => exact hasSubstr_cons_of a ih

theorem hasSubstr_mem {pat s : List Char} {c : Char} (h : hasSubstr pat s = true)
    (hc : c ∈ pat) : c ∈ s := by
  induction s with
  | nil =>
    have : pat <+: ([] : List Char) := startsWithL_iff.mp (by simpa [hasSubstr] using h)
    exact absurd (this.subset hc) (by simp)
  | cons a rest ih =>
    simp only [hasSubstr, Bool.or_eq_true] at h
    rcases h with h | h
    · exact (startsWithL_iff.mp h).subset hc
    · exact List.mem_cons_of_mem a (ih h)

/-- No occurrence of `pat` starts strictly inside `s` when scanning `s ++ t`. -/
def noOccWithin (pat s t : List Char) : Prop :=
  ∀ i, i < s.length → startsWithL pat ((s ++ t).drop i) = false

instance (pat s t : List Char) : Decidable (noOccWithin pat s t) := by
  unfold noOccWithin
  exact Nat.decidableBallLT _ _

theorem replaceAllFuel_congr (pat rep : List Char) :
    ∀ (f₁ f₂ : Nat) (s : List Char), s.length ≤ f₁ → s.length ≤ f₂ →
      replaceAllFuel pat rep f₁ s = replaceAllFuel pat rep f₂ s := by
  intro f₁
  induction f₁ with
  | zero =>
    intro f₂ s h1 _
    have : s = [] := List.eq_nil_of_length_eq_zero (Nat.le_zero.mp h1)
    subst this
    cases f₂ <;> rfl
  | succ n ih =>
    intro f₂ s h1 h2
    cases s with
    | nil => cases f₂ <;> rfl
    | cons c rest =>
      cases f₂ with
      | zero => simp at h2
      | succ m =>
        simp only [replaceAllFuel]
        by_cases hcond : startsWithL pat (c :: rest) = true ∧ pat ≠ []
        · rw [if_pos hcond, if_pos hcond]
          congr 1
          apply ih
          · calc (rest.drop (pat.length - 1)).length ≤ rest.length := by
                  simp [List.length_drop]
               _ ≤ n := by simpa using h1
          · calc (rest.drop (pat.length - 1)).length ≤ rest.length := by
                  simp [List.length_drop]
               _ ≤ m := by simpa using h2
        · rw [if_neg hcond, if_neg hcond]
          congr 1
          exact ih m rest (by simpa using h1) (by simpa using h2)

theorem replaceAll_cons_neg {pat : List Char} (rep : List Char) {c : Char} {s : List Char}
    (h : startsWithL pat (c :: s) = false) :
    replaceAll pat rep (c :: s) = c :: replaceAll pat rep s := by
  unfold replaceAll
  simp only [List.length_cons, replaceAllFuel]
  rw [if_neg (by simp [h])]

theorem replaceAllFuel_succ_cons (pat rep : List Char) (fuel : Nat) (c : Char)
    (rest : List Char) :
    replaceAllFuel pat rep (fuel + 1) (c :: rest) =
      if startsWithL pat (c :: rest) = true ∧ pat ≠ [] then
        rep ++ replaceAllFuel pat rep fuel (rest.drop (pat.length - 1))
      else c :: replaceAllFuel pat rep fuel rest := rfl

theorem replaceAll_prefix {pat : List Char} (rep t : List Char) (hp : pat ≠ []) :
    replaceAll pat rep (pat ++ t) = rep ++ replaceAll pat rep t := by
  obtain ⟨c, cs, rfl⟩ : ∃ c cs, pat = c :: cs := by
    cases pat with
    | nil => exact absurd rfl hp
    | cons c cs => exact ⟨c, cs, rfl⟩
  unfold replaceAll
  rw [List.cons_append, List.length_cons, replaceAllFuel_succ_cons,
    if_pos ⟨by rw [← List.cons_append]; exact startsWithL_append_self (c :: cs) t, hp⟩]
  have hdrop : (cs ++ t).drop ((c :: cs).length - 1) = t := by
    simp only [List.length_cons, Nat.add_sub_cancel]
    exact List.drop_left cs t
  rw [hdrop]
  congr 1
  exact replaceAllFuel_congr (c :: cs) rep _ _ t (by simp) (Nat.le_refl _)

theorem replaceAll_no_occ {pat s : List Char} (rep : List Char)
    (h : hasSubstr pat s = false) : replaceAll pat rep s = s := by
  induction s with
  | nil => rfl
  | cons c rest ih =>
    simp only [hasSubstr, Bool.or_eq_false_iff] at h
    rw [replaceAll_cons_neg rep h.1, ih h.2]

theorem replaceAll_append_no_occ {pat : List Char} (rep : List Char) :
    ∀ {s t : List Char}, noOccWithin pat s t →
      replaceAll pat rep (s ++ t) = s ++ replaceAll pat rep t := by
  intro s
  induction s with
  | nil => intro t _; rfl
  | cons c s' ih =>
    intro t h
    have h0 : startsWithL pat (c :: (s' ++ t)) = false := by
      simpa using h 0 (by simp)
    rw [List.cons_append, replaceAll_cons_neg rep h0,
      ih (fun i hi => by simpa using h (i + 1) (by simp; omega))]
    rfl

theorem trimEndFuel_congr (pat : List Char) :
    ∀ (f₁ f₂ : Nat) (s : List Char), s.length < f₁ → s.length < f₂ →
      trimEndFuel pat f₁ s = trimEndFuel pat f₂ s := by
  intro f₁
  induction f₁ with
  | zero => intro f₂ s h1 _; simp at h1
  | succ n ih =>
    intro f₂ s h1 h2
    cases f₂ with
    | zero => simp at h2
    | succ m =>
      simp only [trimEndFuel]
      by_cases hcond : endsWithL pat s = true ∧ pat ≠ []
      · rw [if_pos hcond, if_pos hcond]
        have hple : pat.length ≤ s.length := (endsWithL_iff.mp hcond.1).length_le
        have hpos : 0 < pat.length := List.length_pos.mpr hcond.2
        apply ih
        · simp only [List.length_take]
          omega
        · simp only [List.length_take]
          omega
      · rw [if_neg hcond, if_neg hcond]

theorem trimEndFuel_succ (pat : List Char) (fuel : Nat) (s : List Char) :
    trimEndFuel pat (fuel + 1) s =
      if endsWithL pat s = true ∧ pat ≠ [] then
        trimEndFuel pat fuel (s.take (s.length - pat.length))
      else s := rfl

theorem trimEndMatches_no_suffix {pat s : List Char} (h : endsWithL pat s = false) :
    trimEndMatches pat s = s := by
  unfold trimEndMatches
  rw [trimEndFuel_succ, if_neg (by simp [h])]

theorem trimEndMatches_append {pat : List Char} (s : List Char) (hp : pat ≠ []) :
    trimEndMatches pat (s ++ pat) = trimEndMatches pat s := by
  have hpos : 0 < pat.length := List.length_pos.mpr hp
  unfold trimEndMatches
  rw [show (s ++ pat).length + 1 = (s.length + pat.length) + 1 by simp,
    trimEndFuel_succ, if_pos ⟨endsWithL_append_self pat s, hp⟩]
  have htake : (s ++ pat).take ((s ++ pat).length - pat.length) = s := by
    simp only [List.length_append, Nat.add_sub_cancel]
    exact List.take_left s pat
  rw [htake]
  exact trimEndFuel_congr pat _ _ s (by omega) (by omega)

theorem rfindChar_eq_none {c : Char} {s : List Char} (h : c ∉ s) :
    rfindChar c s = none := by
  induction s with
  | nil => rfl
  | cons a rest ih =>
    simp only [List.mem_cons, not_or] at h
    simp [rfindChar, ih h.2, Ne.symm h.1]

theorem rfindChar_append_last (s : List Char) {c : Char} {t : List Char} (h : c ∉ t) :
    rfindChar c (s ++ c :: t) = some s.length := by
  induction s with
  | nil => simp [rfindChar, rfindChar_eq_none h]
  | cons a s' ih => simp [rfindChar, ih]

theorem parentAndName_append {s f : List Char} (hf : '/' ∉ f) :
    parentAndName (s ++ '/' :: f) = (s, f) := by
  unfold parentAndName
  rw [rfindChar_append_last s hf]
  have h1 : (s ++ '/' :: f).take s.length = s := by
    have := List.take_left s ('/' :: f)
    simpa using this
  have h2 : (s ++ '/' :: f).drop (s.length + 1) = f := by
    have := List.drop_left (s ++ ['/']) f
    simpa [List.append_assoc] using this
  simp [h1, h2]

theorem parentAndName_no_sep {s : List Char} (h : '/' ∉ s) :
    parentAndName s = ([], s) := by
  unfold parentAndName
  rw [rfindChar_eq_none h]

theorem splitAtLastDot_append {b e : List Char} (he : '.' ∉ e) :
    splitAtLastDot (b ++ '.' :: e) = (b, '.' :: e) := by
  unfold splitAtLastDot
  rw [rfindChar_append_last b he]
  have h1 : (b ++ '.' :: e).take b.length = b := by
    have := List.take_left b ('.' :: e)
    simpa using this
  have h2 : (b ++ '.' :: e).drop b.length = '.' :: e := List.drop_left b ('.' :: e)
  simp [h1, h2]

theorem splitAtLastDot_no_dot {f : List Char} (h : '.' ∉ f) :
    splitAtLastDot f = (f, []) := by
  unfold splitAtLastDot
  rw [rfindChar_eq_none h]

/-! ## Lemmas about path segments and cleaning -/

/-- A well-formed path segment: nonempty, not a dot component, and free of
separators. -/
def goodSeg (s : List Char) : Prop :=
  s ≠ [] ∧ s ≠ chars "." ∧ s ≠ chars ".." ∧ '/' ∉ s ∧ '\\' ∉ s

instance (s : List Char) : Decidable (goodSeg s) := by
  unfold goodSeg
  infer_instance

/-- The leading separator of an absolute path. -/
def optRoot (abs : Bool) : List Char := if abs then ['/'] else []

/-- `joinSegs segs ++ "/"` for a nonempty list, `[]` otherwise: the prefix a
segment list contributes when more segments follow. -/
def preSlash (segs : List (List Char)) : List Char :=
  if segs = [] then [] else joinSegs segs ++ ['/']

theorem joinSegs_cons (s : List Char) {rest : List (List Char)} (h : rest ≠ []) :
    joinSegs (s :: rest) = s ++ '/' :: joinSegs rest := by
  cases rest with
  | nil => exact absurd rfl h
  | cons r rs => rfl

theorem joinSegs_append (xs : List (List Char)) {ys : List (List Char)} (h : ys ≠ []) :
    joinSegs (xs ++ ys) = preSlash xs ++ joinSegs ys := by
  induction xs with
  | nil => simp [preSlash]
  | cons x xs ih =>
    by_cases hxs : xs = []
    · subst hxs
      rw [List.singleton_append, joinSegs_cons x h]
      simp [preSlash, joinSegs]
    · rw [List.cons_append, joinSegs_cons x (by simp [hxs]), ih]
      simp [preSlash, hxs, joinSegs_cons x hxs]

theorem mem_joinSegs {c : Char} :
    ∀ {segs : List (List Char)}, c ∈ joinSegs segs → c = '/' ∨ ∃ s ∈ segs, c ∈ s := by
  intro segs
  induction segs with
  | nil => intro h; simp [joinSegs] at h
  | cons s rest ih =>
    intro h
    cases rest with
    | nil =>
      right
      exact ⟨s, by simp, by simpa [joinSegs] using h⟩
    | cons r rs =>
      rw [joinSegs_cons s (by simp)] at h
      rcases List.mem_append.mp h with h | h
      · right; exact ⟨s, by simp, h⟩
      · rcases List.mem_cons.mp h with h | h
        · left; exact h
        · rcases ih h with h' | ⟨t, ht, hc⟩
          · left; exact h'
          · right; exact ⟨t, by simp [ht], hc⟩

theorem splitOnChar_no_sep {c : Char} {s : List Char} (h : c ∉ s) :
    splitOnChar c s = [s] := by
  induction s with
  | nil => rfl
  | cons a rest ih =>
    simp only [List.mem_cons, not_or] at h
    simp [splitOnChar, Ne.symm h.1, ih h.2]

theorem splitOnChar_append {c : Char} {s : List Char} (t : List Char) (h : c ∉ s) :
    splitOnChar c (s ++ c :: t) = s :: splitOnChar c t := by
  induction s with
  | nil => simp [splitOnChar]
  | cons a s' ih =>
    simp only [List.mem_cons, not_or] at h
    rw [List.cons_append]
    simp only [splitOnChar]
    rw [if_neg (Ne.symm h.1), ih h.2]

theorem splitOnChar_joinSegs :
    ∀ {segs : List (List Char)}, segs ≠ [] → (∀ s ∈ segs, '/' ∉ s) →
      splitOnChar '/' (joinSegs segs) = segs := by
  intro segs
  induction segs with
  | nil => intro h0 _; exact absurd rfl h0
  | cons s rest ih =>
    intro _ h
    cases rest with
    | nil => exact splitOnChar_no_sep (h s (by simp))
    | cons r rs =>
      rw [joinSegs_cons s (by simp), splitOnChar_append _ (h s (by simp)),
        ih (by simp) (fun t ht => h t (by simp [ht]))]

theorem foldl_cleanStep (abs : Bool) :
    ∀ (segs acc : List (List Char)), (∀ s ∈ segs, s ≠ chars "..") →
      segs.foldl (cleanStep abs) acc = acc ++ segs := by
  intro segs
  induction segs with
  | nil => intro acc _; simp
  | cons s rest ih =>
    intro acc h
    rw [List.foldl_cons,
      show cleanStep abs acc s = acc ++ [s] from by
        unfold cleanStep; rw [if_neg (h s (by simp))],
      ih _ (fun t ht => h t (by simp [ht]))]
    simp

theorem startsWithL_slash_cons {a : Char} (l : List Char) (h : a ≠ '/') :
    startsWithL (chars "/") (a :: l) = false := by
  simp only [startsWithL, chars]
  show (['/'].isPrefixOf (a :: l)) = false
  simp [List.isPrefixOf, Ne.symm h]

theorem joinSegs_head {a : Char} (s' : List Char) (rest : List (List Char)) :
    ∃ l, joinSegs ((a :: s') :: rest) = a :: l := by
  cases rest with
  | nil => exact ⟨s', rfl⟩
  | cons r rs =>
    rw [joinSegs_cons _ (by simp)]
    exact ⟨s' ++ '/' :: joinSegs (r :: rs), rfl⟩

theorem pathClean_canonical (abs : Bool) :
    ∀ {segs : List (List Char)}, segs ≠ [] → (∀ s ∈ segs, goodSeg s) →
      pathClean (optRoot abs ++ joinSegs segs) = optRoot abs ++ joinSegs segs := by
  intro segs h0 h
  obtain ⟨s, rest, rfl⟩ : ∃ s rest, segs = s :: rest := by
    cases segs with
    | nil => exact absurd rfl h0
    | cons s rest => exact ⟨s, rest, rfl⟩
  obtain ⟨a, s', rfl⟩ : ∃ a s', s = a :: s' := by
    rcases hs : s with _ | ⟨a, s'⟩
    · exact absurd (hs ▸ rfl) (h s (by simp [hs])).1
    · exact ⟨a, s', rfl⟩
  have hns : '/' ∉ a :: s' := (h _ (by simp)).2.2.2.1
  have ha : a ≠ '/' := fun hc => hns (hc ▸ List.mem_cons_self a s')
  obtain ⟨l, hl⟩ := @joinSegs_head a s' rest
  have hsplit : splitOnChar '/' (joinSegs ((a :: s') :: rest)) = (a :: s') :: rest :=
    splitOnChar_joinSegs (by simp) (fun t ht => (h t ht).2.2.2.1)
  have hfilter :
      ((a :: s') :: rest).filter (fun seg => ¬(seg = [] ∨ seg = chars ".")) =
        (a :: s') :: rest := by
    rw [List.filter_eq_self]
    intro t ht
    simp [(h t ht).1, (h t ht).2.1]
  have hfold :
      ((a :: s') :: rest).foldl (cleanStep abs) [] = (a :: s') :: rest := by
    simpa using foldl_cleanStep abs ((a :: s') :: rest) [] (fun t ht => (h t ht).2.2.1)
  cases abs with
  | false =>
    show pathClean (joinSegs ((a :: s') :: rest)) = _
    unfold pathClean
    rw [hl, startsWithL_slash_cons l ha, ← hl]
    simp only [Bool.false_eq_true, if_false, hsplit, hfilter, hfold]
    rw [if_neg (by simp)]
    simp [optRoot]
  | true =>
    show pathClean ('/' :: joinSegs ((a :: s') :: rest)) = _
    unfold pathClean
    rw [show startsWithL (chars "/") ('/' :: joinSegs ((a :: s') :: rest)) = true from by
      simp [startsWithL, chars, List.isPrefixOf]]
    simp only [if_true]
    rw [show splitOnChar '/' ('/' :: joinSegs ((a :: s') :: rest))
        = [] :: splitOnChar '/' (joinSegs ((a :: s') :: rest)) from by
      simp [splitOnChar]]
    rw [hsplit]
    rw [show ([] :: (a :: s') :: rest).filter (fun seg => ¬(seg = [] ∨ seg = chars "."))
        = ((a :: s') :: rest).filter (fun seg => ¬(seg = [] ∨ seg = chars ".")) from by
      simp]
    rw [hfilter, hfold]
    simp [optRoot]

/-- The separator-prefixed form of the middle segments. -/
def withMid (mid : List (List Char)) : List Char :=
  if mid = [] then [] else '/' :: joinSegs mid

theorem withMid_eq (mid : List (List Char)) (f : List Char) :
    '/' :: (preSlash mid ++ f) = withMid mid ++ '/' :: f := by
  cases mid with
  | nil => simp [preSlash, withMid]
  | cons m ms => simp [preSlash, withMid]

theorem no_backslash_joinSegs {segs : List (List Char)} (h : ∀ s ∈ segs, goodSeg s) :
    '\\' ∉ joinSegs segs := by
  intro hc
  rcases mem_joinSegs hc with h' | ⟨s, hs, hcs⟩
  · exact absurd h' (by decide)
  · exact (h s hs).2.2.2.2 hcs

/-- Core behaviour of `MavenResolver::transform_path` on a path whose only
`src/main` occurrence is a genuine pair of directory segments: the pair
becomes `src/test`, the filename becomes `tname`, and every other segment is
preserved. -/
theorem transform_path_general (abs : Bool) (pre mid : List (List Char))
    (fname tname : List Char)
    (hpre : ∀ s ∈ pre, goodSeg s) (hmid : ∀ s ∈ mid, goodSeg s)
    (hf : goodSeg fname) (ht : goodSeg tname)
    (htname : tname = (splitAtLastDot fname).1 ++ chars "Test" ++ (splitAtLastDot fname).2)
    (hA : noOccWithin (chars "src/main") (optRoot abs ++ preSlash pre)
      (chars "src/main" ++ '/' :: joinSegs (mid ++ [fname])))
    (hB : hasSubstr (chars "src/main") ('/' :: joinSegs (mid ++ [fname])) = false) :
    transform_path
        (optRoot abs ++ joinSegs (pre ++ [chars "src", chars "main"] ++ mid ++ [fname]))
      = .ok (optRoot abs ++ joinSegs (pre ++ [chars "src", chars "test"] ++ mid ++ [tname])) := by
  have hsm : chars "src/main" = chars "src" ++ '/' :: chars "main" := by decide
  have hst : chars "src/test" = chars "src" ++ '/' :: chars "test" := by decide
  have hpath :
      optRoot abs ++ joinSegs (pre ++ [chars "src", chars "main"] ++ mid ++ [fname])
        = (optRoot abs ++ preSlash pre) ++ chars "src/main"
            ++ '/' :: joinSegs (mid ++ [fname]) := by
    rw [show pre ++ [chars "src", chars "main"] ++ mid ++ [fname]
        = pre ++ (chars "src" :: chars "main" :: (mid ++ [fname])) from by simp,
      joinSegs_append pre (by simp), joinSegs_cons _ (by simp),
      joinSegs_cons _ (by simp), hsm]
    simp
  have hrhs :
      optRoot abs ++ joinSegs (pre ++ [chars "src", chars "test"] ++ mid ++ [tname])
        = ((optRoot abs ++ preSlash pre) ++ chars "src/test" ++ withMid mid)
            ++ '/' :: tname := by
    rw [show pre ++ [chars "src", chars "test"] ++ mid ++ [tname]
        = pre ++ (chars "src" :: chars "test" :: (mid ++ [tname])) from by simp,
      joinSegs_append pre (by simp), joinSegs_cons _ (by simp),
      joinSegs_cons _ (by simp), joinSegs_append mid (by simp : [tname] ≠ []),
      show joinSegs [tname] = tname from rfl, withMid_eq, hst]
    simp
  have hgood : ∀ s ∈ pre ++ [chars "src", chars "main"] ++ mid ++ [fname], goodSeg s := by
    intro s hs
    rcases List.mem_append.mp hs with hs | hs
    · rcases List.mem_append.mp hs with hs | hs
      · rcases List.mem_append.mp hs with hs | hs
        · exact hpre s hs
        · rcases List.mem_cons.mp hs with rfl | hs
          · decide
          · rcases List.mem_cons.mp hs with rfl | hs
            · decide
            · simp at hs
      · exact hmid s hs
    · rw [List.mem_singleton.mp hs]; exact hf
  have hgood' : ∀ s ∈ pre ++ [chars "src", chars "test"] ++ mid ++ [tname], goodSeg s := by
    intro s hs
    rcases List.mem_append.mp hs with hs | hs
    · rcases List.mem_append.mp hs with hs | hs
      · rcases List.mem_append.mp hs with hs | hs
        · exact hpre s hs
        · rcases List.mem_cons.mp hs with rfl | hs
          · decide
          · rcases List.mem_cons.mp hs with rfl | hs
            · decide
            · simp at hs
      · exact hmid s hs
    · rw [List.mem_singleton.mp hs]; exact ht
  have hclean :
      pathClean ((optRoot abs ++ preSlash pre) ++ chars "src/main"
          ++ '/' :: joinSegs (mid ++ [fname]))
        = (optRoot abs ++ preSlash pre) ++ chars "src/main"
            ++ '/' :: joinSegs (mid ++ [fname]) := by
    rw [← hpath]
    exact pathClean_canonical abs (by simp) hgood
  have hcontains :
      hasSubstr (chars "src/main")
        ((optRoot abs ++ preSlash pre) ++ chars "src/main"
          ++ '/' :: joinSegs (mid ++ [fname])) = true :=
    hasSubstr_middle _ _ _
  have hq :
      replaceAll (chars "src/main") (chars "src/test")
          ((optRoot abs ++ preSlash pre) ++ chars "src/main"
            ++ '/' :: joinSegs (mid ++ [fname]))
        = (optRoot abs ++ preSlash pre) ++ chars "src/test"
            ++ '/' :: joinSegs (mid ++ [fname]) := by
    rw [List.append_assoc, replaceAll_append_no_occ _ hA,
      replaceAll_prefix _ _ (by decide), replaceAll_no_occ _ hB,
      ← List.append_assoc]
  have hnb :
      '\\' ∉ (optRoot abs ++ preSlash pre) ++ chars "src/test"
          ++ '/' :: joinSegs (mid ++ [fname]) := by
    intro hc
    rcases List.mem_append.mp hc with hc | hc
    · rcases List.mem_append.mp hc with hc | hc
      · rcases List.mem_append.mp hc with hc | hc
        · cases abs <;> simp [optRoot] at hc
        · unfold preSlash at hc
          by_cases hp : pre = []
          · rw [if_pos hp] at hc; simp at hc
          · rw [if_neg hp] at hc
            rcases List.mem_append.mp hc with hc | hc
            · exact no_backslash_joinSegs hpre hc
            · simp at hc
      · exact absurd hc (by decide)
    · rcases List.mem_cons.mp hc with hc | hc
      · exact absurd hc (by decide)
      · exact no_backslash_joinSegs
          (fun s hs => by
            rcases List.mem_append.mp hs with hs | hs
            · exact hmid s hs
            · rw [List.mem_singleton.mp hs]; exact hf) hc
  have hq2 :
      replaceAll (chars "src\\main") (chars "src\\test")
          ((optRoot abs ++ preSlash pre) ++ chars "src/test"
            ++ '/' :: joinSegs (mid ++ [fname]))
        = (optRoot abs ++ preSlash pre) ++ chars "src/test"
            ++ '/' :: joinSegs (mid ++ [fname]) := by
    apply replaceAll_no_occ
    cases hcase : hasSubstr (chars "src\\main")
        ((optRoot abs ++ preSlash pre) ++ chars "src/test"
          ++ '/' :: joinSegs (mid ++ [fname])) with
    | false => rfl
    | true => exact absurd (hasSubstr_mem hcase (by decide)) hnb
  have hqC :
      (optRoot abs ++ preSlash pre) ++ chars "src/test"
          ++ '/' :: joinSegs (mid ++ [fname])
        = ((optRoot abs ++ preSlash pre) ++ chars "src/test" ++ withMid mid)
            ++ '/' :: fname := by
    rw [joinSegs_append mid (by simp : [fname] ≠ []),
      show joinSegs [fname] = fname from rfl, withMid_eq]
    simp
  have hpn :
      parentAndName ((optRoot abs ++ preSlash pre) ++ chars "src/test"
          ++ '/' :: joinSegs (mid ++ [fname]))
        = ((optRoot abs ++ preSlash pre) ++ chars "src/test" ++ withMid mid, fname) := by
    rw [hqC]
    exact parentAndName_append hf.2.2.2.1
  have hfn :
      fileNameOf ((optRoot abs ++ preSlash pre) ++ chars "src/test"
          ++ '/' :: joinSegs (mid ++ [fname])) = some fname := by
    unfold fileNameOf
    rw [hpn]
    simp [hf.1, hf.2.1, hf.2.2.1]
  have hCne : ((optRoot abs ++ preSlash pre) ++ chars "src/test" ++ withMid mid) ≠ [] := by
    intro hC
    rcases List.append_eq_nil.mp hC with ⟨hC1, _⟩
    rcases List.append_eq_nil.mp hC1 with ⟨_, hC2⟩
    exact absurd hC2 (by decide)
  have hcleanR :
      pathClean (((optRoot abs ++ preSlash pre) ++ chars "src/test" ++ withMid mid)
          ++ '/' :: tname)
        = ((optRoot abs ++ preSlash pre) ++ chars "src/test" ++ withMid mid)
            ++ '/' :: tname := by
    rw [← hrhs]
    exact pathClean_canonical abs (by simp) hgood'
  rw [hpath, hrhs]
  simp only [transform_path]
  rw [hclean]
  rw [hcontains, Bool.true_or]
  rw [if_neg (fun h => h rfl)]
  rw [hq, hq2, hfn, hpn]
  show Except.ok (pathClean (pushPath
      (optRoot abs ++ preSlash pre ++ chars "src/test" ++ withMid mid)
      ((splitAtLastDot fname).1 ++ chars "Test" ++ (splitAtLastDot fname).2)))
    = Except.ok (optRoot abs ++ preSlash pre ++ chars "src/test" ++ withMid mid ++ '/' :: tname)
  rw [← htname]
  rw [show pushPath (optRoot abs ++ preSlash pre ++ chars "src/test" ++ withMid mid) tname
      = (optRoot abs ++ preSlash pre ++ chars "src/test" ++ withMid mid) ++ '/' :: tname from by
    unfold pushPath; rw [if_neg hCne]]
  rw [hcleanR]

theorem goodSeg_appendTest {base : List Char} (hb : goodSeg base) :
    goodSeg (base ++ chars "Test") := by
  obtain ⟨_, _, _, hsl, hbs⟩ := hb
  refine ⟨?_, ?_, ?_, ?_, ?_⟩
  · intro h
    rcases List.append_eq_nil.mp h with ⟨_, h2⟩
    exact absurd h2 (by decide)
  · intro h
    have hlen := congrArg List.length h
    simp only [List.length_append] at hlen
    rw [show (chars "Test").length = 4 from by decide,
      show (chars ".").length = 1 from by decide] at hlen
    omega
  · intro h
    have hlen := congrArg List.length h
    simp only [List.length_append] at hlen
    rw [show (chars "Test").length = 4 from by decide,
      show (chars "..").length = 2 from by decide] at hlen
    omega
  · intro hc
    rcases List.mem_append.mp hc with hc | hc
    · exact hsl hc
    · exact absurd hc (by decide)
  · intro hc
    rcases List.mem_append.mp hc with hc | hc
    · exact hbs hc
    · exact absurd hc (by decide)

theorem goodSeg_insertTest {base ext : List Char} (hf : goodSeg (base ++ '.' :: ext)) :
    goodSeg (base ++ chars "Test" ++ '.' :: ext) := by
  obtain ⟨_, _, _, hsl, hbs⟩ := hf
  have hslb : '/' ∉ base := fun hc => hsl (List.mem_append.mpr (Or.inl hc))
  have hsle : '/' ∉ '.' :: ext := fun hc => hsl (List.mem_append.mpr (Or.inr hc))
  have hbsb : '\\' ∉ base := fun hc => hbs (List.mem_append.mpr (Or.inl hc))
  have hbse : '\\' ∉ '.' :: ext := fun hc => hbs (List.mem_append.mpr (Or.inr hc))
  refine ⟨?_, ?_, ?_, ?_, ?_⟩
  · simp
  · intro h
    have hlen := congrArg List.length h
    simp only [List.length_append, List.length_cons] at hlen
    rw [show (chars "Test").length = 4 from by decide,
      show (chars ".").length = 1 from by decide] at hlen
    omega
  · intro h
    have hlen := congrArg List.length h
    simp only [List.length_append, List.length_cons] at hlen
    rw [show (chars "Test").length = 4 from by decide,
      show (chars "..").length = 2 from by decide] at hlen
    omega
  · intro hc
    rcases List.mem_append.mp hc with hc | hc
    · rcases List.mem_append.mp hc with hc | hc
      · exact hslb hc
      · exact absurd hc (by decide)
    · exact hsle hc
  · intro hc
    rcases List.mem_append.mp hc with hc | hc
    · rcases List.mem_append.mp hc with hc | hc
      · exact hbsb hc
      · exact absurd hc (by decide)
    · exact hbse hc

/-- Whether the segments `a` and `b` occur adjacently in a segment list. -/
def hasSegPair (a b : List Char) : List (List Char) → Bool
  | x :: y :: rest => (decide (x = a) && decide (y = b)) || hasSegPair a b (y :: rest)
  | _ => false

/-- Claim C3, counterexample: the directory-substitution strategy matches
`src/main` as a substring, not as a pair of directory segments.  The cleaned
path `xsrc/mainy/Foo.java` has no `src/main` segment (its segments are
`xsrc`, `mainy`, `Foo.java`), yet the transformation succeeds — mangling the
unrelated segments to `xsrc/testy` — instead of failing with `InvalidPath`
as the claim requires. -/
theorem transform_path_substring_counterexample :
    transform_path (chars "xsrc/mainy/Foo.java")
        = .ok (chars "xsrc/testy/FooTest.java") ∧
      hasSegPair (chars "src") (chars "main")
        (splitOnChar '/' (chars "xsrc/mainy/Foo.java")) = false := by
  constructor
  · decide
  · decide

/-- Claim C3 (amended): matching of the main-source segment is
substring-based on the cleaned path.  (1) For every path whose cleaned form
contains `src/main` exactly as the genuine pair of directory segments, the
output replaces that pair with `src/test` and inserts `Test` immediately
before the extension, preserving all other path segments.  (2) A path whose
cleaned form lacks both the `src/main` and `src\main` substrings fails with
`InvalidPath`. -/
theorem transform_path_directory_substitution :
    (∀ (abs : Bool) (pre mid : List (List Char)) (base ext : List Char),
      (∀ s ∈ pre, goodSeg s) → (∀ s ∈ mid, goodSeg s) →
      goodSeg (base ++ '.' :: ext) → '.' ∉ ext →
      noOccWithin (chars "src/main") (optRoot abs ++ preSlash pre)
        (chars "src/main" ++ '/' :: joinSegs (mid ++ [base ++ '.' :: ext])) →
      hasSubstr (chars "src/main") ('/' :: joinSegs (mid ++ [base ++ '.' :: ext])) = false →
      transform_path (optRoot abs ++ joinSegs
          (pre ++ [chars "src", chars "main"] ++ mid ++ [base ++ '.' :: ext]))
        = .ok (optRoot abs ++ joinSegs
            (pre ++ [chars "src", chars "test"] ++ mid ++ [base ++ chars "Test" ++ '.' :: ext]))) ∧
    (∀ p : List Char,
      hasSubstr (chars "src/main") (pathClean p) = false →
      hasSubstr (chars "src\\main") (pathClean p) = false →
      transform_path p
        = .error (.InvalidPath p "Path does not contain \x27src/main\x27 directory")) := by
  constructor
  · intro abs pre mid base ext hpre hmid hf he hA hB
    apply transform_path_general abs pre mid (base ++ '.' :: ext)
      (base ++ chars "Test" ++ '.' :: ext) hpre hmid hf (goodSeg_insertTest hf) ?_ hA hB
    rw [splitAtLastDot_append he]
  · intro p h1 h2
    simp only [transform_path]
    rw [h1, h2]
    simp

/-- Claim C3, witness: a Maven-layout Java path is rewritten to its test
path, and a path without the main-source segment fails. -/
theorem transform_path_directory_substitution_witness :
    transform_path (chars "src/main/java/com/example/Foo.java")
        = .ok (chars "src/test/java/com/example/FooTest.java") ∧
      transform_path (chars "lib/Foo.java")
        = .error (.InvalidPath (chars "lib/Foo.java")
            "Path does not contain \x27src/main\x27 directory") := by
  constructor
  · exact transform_path_directory_substitution.1 false []
      [chars "java", chars "com", chars "example"] (chars "Foo") (chars "java")
      (by decide) (by decide) (by decide) (by decide) (by decide) (by decide)
  · exact transform_path_directory_substitution.2 (chars "lib/Foo.java")
      (by decide) (by decide)

/-- Claim C10: for a source path containing the main-source segment whose
filename has no dot, the transformation succeeds rather than failing:
`Test` is appended to the end of the filename (`src/main/Foo` maps to
`src/test/FooTest`), so the absence of an extension is not an `InvalidPath`
condition. -/
theorem transform_path_extensionless (abs : Bool) (pre mid : List (List Char))
    (base : List Char)
    (hpre : ∀ s ∈ pre, goodSeg s) (hmid : ∀ s ∈ mid, goodSeg s)
    (hbase : goodSeg base) (hdot : '.' ∉ base)
    (hA : noOccWithin (chars "src/main") (optRoot abs ++ preSlash pre)
      (chars "src/main" ++ '/' :: joinSegs (mid ++ [base])))
    (hB : hasSubstr (chars "src/main") ('/' :: joinSegs (mid ++ [base])) = false) :
    transform_path
        (optRoot abs ++ joinSegs (pre ++ [chars "src", chars "main"] ++ mid ++ [base]))
      = .ok (optRoot abs ++ joinSegs
          (pre ++ [chars "src", chars "test"] ++ mid ++ [base ++ chars "Test"])) := by
  apply transform_path_general abs pre mid base (base ++ chars "Test") hpre hmid hbase
    (goodSeg_appendTest hbase) ?_ hA hB
  rw [splitAtLastDot_no_dot hdot]
  simp

/-- Claim C10, witness: `src/main/Foo` maps to `src/test/FooTest`. -/
theorem transform_path_extensionless_witness :
    transform_path (chars "src/main/Foo") = .ok (chars "src/test/FooTest") :=
  transform_path_extensionless false [] [] (chars "Foo")
    (by decide) (by decide) (by decide) (by decide) (by decide) (by decide)

/-! ## Claim C7: identifier round trip -/

theorem ne_of_length_ne {s t : List Char} (h : s.length ≠ t.length) : s ≠ t :=
  fun hc => h (congrArg List.length hc)

theorem fileNameOf_no_sep {s : List Char} (hsl : '/' ∉ s) (hne : s ≠ [])
    (h1 : s ≠ chars ".") (h2 : s ≠ chars "..") : fileNameOf s = some s := by
  unfold fileNameOf
  rw [parentAndName_no_sep hsl]
  simp [hne, h1, h2]

/-- Claim C7, counterexample: the round trip fails for base names ending in
`Test`.  Deriving the identifier from the test filename `TestTest.java`
yields `Test`, but deriving it from the corresponding source filename
`Test.java` yields the empty name, because the whole filename is treated as
a `Test.java` suffix and stripped.  The Rust module extractor also breaks
the stated round trip: it lowercases and never strips a `Test` suffix
(`FooTest.rs` yields `footest` while `Foo.rs` yields `foo`). -/
theorem extract_class_name_counterexample :
    extract_class_name (chars "TestTest.java") = .ok (chars "Test") ∧
      extract_class_name (chars "Test.java") = .ok [] ∧
      extract_module_name (chars "FooTest.rs") = .ok (chars "footest") ∧
      extract_module_name (chars "Foo.rs") = .ok (chars "foo") := by
  refine ⟨by decide, by decide, by decide, by decide⟩

/-- Claim C7 (amended): for the Java templates, whose name extraction is
filename-based, the round trip holds for every base name that contains no
separator, does not end in `Test`, and does not end in `.java`: both
`FooTest.java` and `Foo.java` yield `Foo`. -/
theorem extract_class_name_round_trip (foo : List Char)
    (hsl : '/' ∉ foo)
    (h1 : endsWithL (chars "Test") foo = false)
    (h2 : endsWithL (chars ".java") foo = false) :
    extract_class_name (foo ++ chars "Test.java") = .ok foo ∧
      extract_class_name (foo ++ chars ".java") = .ok foo := by
  have l9 : (chars "Test.java").length = 9 := by decide
  have l5 : (chars ".java").length = 5 := by decide
  have hjava : chars "Test.java" = chars "Test" ++ chars ".java" := by decide
  have h3 : endsWithL (chars "Test.java") foo = false := by
    cases hc : endsWithL (chars "Test.java") foo with
    | false => rfl
    | true =>
      have hsuf : chars ".java" <:+ foo :=
        List.IsSuffix.trans ⟨chars "Test", by decide⟩ (endsWithL_iff.mp hc)
      rw [endsWithL_iff.mpr hsuf] at h2
      exact absurd h2 (by simp)
  constructor
  · have hfn : fileNameOf (foo ++ chars "Test.java") = some (foo ++ chars "Test.java") := by
      apply fileNameOf_no_sep
      · intro hc
        rcases List.mem_append.mp hc with hc | hc
        · exact hsl hc
        · exact absurd hc (by decide)
      · apply ne_of_length_ne
        simp only [List.length_append, l9, List.length_nil]
        omega
      · apply ne_of_length_ne
        simp only [List.length_append, l9, show (chars ".").length = 1 from by decide]
        omega
      · apply ne_of_length_ne
        simp only [List.length_append, l9, show (chars "..").length = 2 from by decide]
        omega
    unfold extract_class_name
    rw [hfn]
    simp only [endsWithL_append_self, if_pos]
    rw [trimEndMatches_append foo (by decide), trimEndMatches_no_suffix h3]
  · have hfn : fileNameOf (foo ++ chars ".java") = some (foo ++ chars ".java") := by
      apply fileNameOf_no_sep
      · intro hc
        rcases List.mem_append.mp hc with hc | hc
        · exact hsl hc
        · exact absurd hc (by decide)
      · apply ne_of_length_ne
        simp only [List.length_append, l5, List.length_nil]
        omega
      · apply ne_of_length_ne
        simp only [List.length_append, l5, show (chars ".").length = 1 from by decide]
        omega
      · apply ne_of_length_ne
        simp only [List.length_append, l5, show (chars "..").length = 2 from by decide]
        omega
    have hnot : endsWithL (chars "Test.java") (foo ++ chars ".java") = false := by
      cases hc : endsWithL (chars "Test.java") (foo ++ chars ".java") with
      | false => rfl
      | true =>
        obtain ⟨t, hts⟩ := endsWithL_iff.mp hc
        rw [hjava, ← List.append_assoc] at hts
        have hfoo : t ++ chars "Test" = foo := List.append_cancel_right hts
        rw [endsWithL_iff.mpr ⟨t, hfoo⟩] at h1
        exact absurd h1 (by simp)
    unfold extract_class_name
    rw [hfn]
    show (if endsWithL (chars "Test.java") (foo ++ chars ".java") = true then
        Except.ok (trimEndMatches (chars "Test.java") (foo ++ chars ".java"))
      else if endsWithL (chars ".java") (foo ++ chars ".java") = true then
        Except.ok (trimEndMatches (chars ".java") (foo ++ chars ".java"))
      else Except.ok (foo ++ chars ".java"))
      = Except.ok foo
    rw [hnot, if_neg (by simp), endsWithL_append_self (chars ".java") foo, if_pos rfl,
      trimEndMatches_append foo (by decide), trimEndMatches_no_suffix h2]

/-- Claim C7, witness: both `FooTest.java` and `Foo.java` yield `Foo`. -/
theorem extract_class_name_round_trip_witness :
    extract_class_name (chars "Foo" ++ chars "Test.java") = .ok (chars "Foo") ∧
      extract_class_name (chars "Foo" ++ chars ".java") = .ok (chars "Foo") :=
  extract_class_name_round_trip (chars "Foo") (by decide) (by decide) (by decide)

/-! ## Claim C5: validity table and pipeline rejection -/

theorem resolveFramework_explicit_invalid {language : Language} {framework : Framework}
    (w : World) (cache : ProjectCache) (project_root : Option (List Char))
    (language_str : String) (source_path : List Char)
    (h : is_valid_combination language framework = false) :
    resolveFramework w cache project_root language_str source_path language (some framework)
      = .error (.InvalidCombination (languageName language) (frameworkName framework)) := by
  unfold resolveFramework
  show (match validate_combination language framework with
    | .ok _ => Except.ok framework
    | .error e => Except.error e) = _
  rw [show validate_combination language framework
      = .error (.InvalidCombination (languageName language) (frameworkName framework)) from by
    unfold validate_combination; rw [h]; simp]

/-- Claim C5: `is_valid_combination` agrees exactly with the fixed validity
table of the specification, `validate_combination` errors iff the
combination is invalid, and a caller-supplied explicit
(language, framework) pair outside the table always makes the pipeline fail
with `InvalidCombination`, whatever the cache, detection or filesystem
state. -/
theorem valid_combination_table :
    (∀ (language : Language) (framework : Framework),
      is_valid_combination language framework = validityTable language framework) ∧
    (∀ (language : Language) (framework : Framework),
      (∃ e, validate_combination language framework = .error e) ↔
        is_valid_combination language framework = false) ∧
    (∀ (w : World) (src : List Char) (opts : GeneratorOptions)
        (language : Language) (framework : Framework),
      opts.language = some language → opts.framework = some framework →
      is_valid_combination language framework = false →
      (generate w src opts).1
        = .error (.InvalidCombination (languageName language) (frameworkName framework))) := by
  refine ⟨fun language framework => by cases language <;> cases framework <;> rfl, ?_, ?_⟩
  · intro language framework
    cases h : is_valid_combination language framework with
    | true => simp [validate_combination, h]
    | false => simp [validate_combination, h]
  · intro w src opts language framework hl hf hinvalid
    have hprep : generatePrep w src (some language) (some framework) opts.structKind
        opts.create
        = (.error (.InvalidCombination (languageName language) (frameworkName framework)), w) := by
      simp only [generatePrep, resolveLangFwSt,
        resolveFramework_explicit_invalid w (load_cache w)
          (find_project_root w src language) (languageName language) src hinvalid]
    unfold generate
    rw [hl, hf, hprep]

/-- Claim C5, witness: Java plus Pytest is outside the table and the
pipeline rejects it on an arbitrary concrete world. -/
theorem valid_combination_table_witness :
    (generate ⟨[], [], [], none, 0⟩ (chars "Foo.java")
        ⟨.Maven, some .Java, some .Pytest, true, false⟩).1
      = .error (.InvalidCombination "Java" "Pytest") :=
  valid_combination_table.2.2 ⟨[], [], [], none, 0⟩ (chars "Foo.java")
    ⟨.Maven, some .Java, some .Pytest, true, false⟩ .Java .Pytest rfl rfl (by decide)

/-! ## Claim C6: cache staleness -/

theorem stale_body_iff (w : World) (path : List Char) (last_used : Nat) :
    (if osExists w path then
      match alookup path w.osFiles with
      | some fd =>
        match fd.mtime with
        | some mod_time => decide (last_used < mod_time)
        | none => false
      | none => false
    else false) = true ↔
      ∃ fd, alookup path w.osFiles = some fd ∧ ∃ t, fd.mtime = some t ∧ last_used < t := by
  constructor
  · intro h
    split at h
    · rcases hl : alookup path w.osFiles with _ | fd
      · rw [hl] at h; simp at h
      · rw [hl] at h
        have h' : (match fd.mtime with
          | some mod_time => decide (last_used < mod_time)
          | none => false) = true := h
        rcases hm : fd.mtime with _ | t
        · rw [hm] at h'; simp at h'
        · rw [hm] at h'
          exact ⟨fd, rfl, t, hm, of_decide_eq_true h'⟩
    · simp at h
  · rintro ⟨fd, hfd, t, ht, hlt⟩
    rw [if_pos (show osExists w path = true from by
      unfold osExists; rw [hfd]; simp)]
    rw [hfd]
    show (match fd.mtime with
      | some mod_time => decide (last_used < mod_time)
      | none => false) = true
    rw [ht]
    simp [hlt]

/-- Claim C6: `is_cache_stale` returns true iff at least one listed marker
file exists under the root with a modification time strictly greater than
`last_used`; it returns false when every marker file is absent, has
unreadable metadata, or is not newer. -/
theorem is_cache_stale_iff (w : World) (project_root : List Char) (last_used : Nat)
    (config_files : List String) :
    is_cache_stale w project_root last_used config_files = true ↔
      ∃ f ∈ config_files,
        ∃ fd, alookup (joinUnder project_root (chars f)) w.osFiles = some fd ∧
          ∃ t, fd.mtime = some t ∧ last_used < t := by
  unfold is_cache_stale
  rw [List.any_eq_true]
  constructor
  · rintro ⟨f, hf, hb⟩
    exact ⟨f, hf, (stale_body_iff w (joinUnder project_root (chars f)) last_used).mp hb⟩
  · rintro ⟨f, hf, hrest⟩
    exact ⟨f, hf, (stale_body_iff w (joinUnder project_root (chars f)) last_used).mpr hrest⟩

/-! ## Claim C1: framework resolution precedence -/

/-- Claim C1: with no explicit framework, resolution follows first-match
precedence.  (1) A cache entry for (root, language) that is not stale and
whose stored framework string decodes wins (subject to the validity check).
(2) An entry whose framework string is unrecognized behaves exactly as if
there were no cache entry at all.  (3) A stale entry likewise behaves as a
cache miss.  (4) On a cache miss, manifest-content detection is tried and
the per-language default is the final fallback. -/
theorem framework_resolution_precedence (w : World) (cache : ProjectCache)
    (root : List Char) (language_str : String) (src : List Char) (language : Language) :
    (∀ entry fw, get_cache_entry cache root language_str = some entry →
      is_cache_stale w root entry.last_used (config_files_for_language language) = false →
      parse_cached_framework entry.framework = some fw →
      resolveFramework w cache (some root) language_str src language none
        = match validate_combination language fw with
          | .ok _ => .ok fw
          | .error e => .error e) ∧
    (∀ entry (cache₂ : ProjectCache),
      get_cache_entry cache root language_str = some entry →
      parse_cached_framework entry.framework = none →
      get_cache_entry cache₂ root language_str = none →
      resolveFramework w cache (some root) language_str src language none
        = resolveFramework w cache₂ (some root) language_str src language none) ∧
    (∀ entry (cache₂ : ProjectCache),
      get_cache_entry cache root language_str = some entry →
      is_cache_stale w root entry.last_used (config_files_for_language language) = true →
      get_cache_entry cache₂ root language_str = none →
      resolveFramework w cache (some root) language_str src language none
        = resolveFramework w cache₂ (some root) language_str src language none) ∧
    (get_cache_entry cache root language_str = none →
      resolveFramework w cache (some root) language_str src language none
        = match detect_framework w src language with
          | .error e => .error e
          | .ok (some fw) =>
            match validate_combination language fw with
            | .ok _ => .ok fw
            | .error e => .error e
          | .ok none => .ok (default_framework_for_language language)) := by
  refine ⟨?_, ?_, ?_, ?_⟩
  · intro entry fw hentry hstale hparse
    simp only [resolveFramework, hentry, hstale, hparse, Bool.false_eq_true, if_false]
  · intro entry cache₂ hentry hparse hcache₂
    simp only [resolveFramework, hentry, hparse, hcache₂, ite_self]
  · intro entry cache₂ hentry hstale hcache₂
    simp only [resolveFramework, hentry, hstale, hcache₂, if_true]
  · intro hcache
    simp only [resolveFramework, hcache]

/-- A concrete OS filesystem with a Rust project root whose `Cargo.toml` was
modified at time 200. -/
def rustRootWorld : World :=
  ⟨[(chars "/p/Cargo.toml", ⟨chars "[package]", some 200⟩)], [chars "/p"], [], none, 0⟩

/-- Claim C1, witness: the four precedence tiers on concrete worlds — a
fresh decodable entry wins; an unrecognized entry and a stale entry behave
exactly like the empty cache; a cache miss falls to detection (which yields
`Native` for the Rust project). -/
theorem framework_resolution_precedence_witness :
    resolveFramework rustRootWorld [(chars "/p", [("Rust", ⟨"Native", "SameFile", 300⟩)])]
        (some (chars "/p")) "Rust" (chars "/p/src/lib.rs") .Rust none = .ok .Native ∧
    resolveFramework rustRootWorld [(chars "/p", [("Rust", ⟨"Bogus", "SameFile", 300⟩)])]
        (some (chars "/p")) "Rust" (chars "/p/src/lib.rs") .Rust none
      = resolveFramework rustRootWorld [] (some (chars "/p")) "Rust"
          (chars "/p/src/lib.rs") .Rust none ∧
    resolveFramework rustRootWorld [(chars "/p", [("Rust", ⟨"Native", "SameFile", 100⟩)])]
        (some (chars "/p")) "Rust" (chars "/p/src/lib.rs") .Rust none
      = resolveFramework rustRootWorld [] (some (chars "/p")) "Rust"
          (chars "/p/src/lib.rs") .Rust none ∧
    resolveFramework rustRootWorld [] (some (chars "/p")) "Rust"
        (chars "/p/src/lib.rs") .Rust none = .ok .Native := by
  refine ⟨?_, ?_, ?_, ?_⟩
  · exact ((framework_resolution_precedence rustRootWorld _ _ _ _ _).1
      ⟨"Native", "SameFile", 300⟩ .Native (by decide) (by decide) (by decide)).trans (by decide)
  · exact (framework_resolution_precedence rustRootWorld _ _ _ _ _).2.1
      ⟨"Bogus", "SameFile", 300⟩ [] (by decide) (by decide) (by decide)
  · exact (framework_resolution_precedence rustRootWorld _ _ _ _ _).2.2.1
      ⟨"Native", "SameFile", 100⟩ [] (by decide) (by decide) (by decide)
  · exact ((framework_resolution_precedence rustRootWorld _ _ _ _ _).2.2.2
      (by decide)).trans (by decide)

/-! ## Claim C2: structure resolution and the staleness rule -/

/-- A concrete OS filesystem where the Java project root `/p` has a Maven
directory layout and a `pom.xml` modified at time 200. -/
def staleJavaWorld : World :=
  ⟨[(chars "/p/pom.xml", ⟨chars "<project/>", some 200⟩)],
    [chars "/p", chars "/p/src/main/java", chars "/p/src/test/java"], [], none, 300⟩

/-- Claim C2, counterexample: with the caller's default structure, a cache
entry for (root, language) whose marker file is newer than its `last_used`
timestamp (`200 > 100`, so the entry is stale) still has its cached
structure `Gradle` used by structure resolution; the directory-presence
re-detection the claim requires would have produced `Maven` instead.  The
staleness rule is consulted only by the framework resolver. -/
theorem structure_staleness_counterexample :
    is_cache_stale staleJavaWorld (chars "/p") 100 (config_files_for_language .Java) = true ∧
      detect_structure staleJavaWorld (chars "/p") .Java = .ok .Maven ∧
      resolveStructure staleJavaWorld [(chars "/p", [("Java", ⟨"JUnit", "Gradle", 100⟩)])]
        (some (chars "/p")) "Java" .Java .Maven = .Gradle := by
  refine ⟨by decide, by decide, by decide⟩

/-- Claim C2 (amended): when the caller did not explicitly choose a
non-default structure and a cache entry exists for (project root, language),
structure resolution uses the decoded cached structure unconditionally —
the staleness rule is not consulted, and marker-file modification times have
no effect (unrecognized structure strings fall back to the caller's
default).  Directory-presence re-detection is performed only when no cache
entry exists. -/
theorem structure_resolution_cache (w : World) (cache : ProjectCache) (root : List Char)
    (language_str : String) (language : Language) :
    (∀ entry, get_cache_entry cache root language_str = some entry →
      resolveStructure w cache (some root) language_str language .Maven
        = parse_cached_structure entry.structureName .Maven) ∧
    (get_cache_entry cache root language_str = none →
      resolveStructure w cache (some root) language_str language .Maven
        = match detect_structure w root language with
          | .ok st => st
          | .error _ => .Maven) := by
  constructor
  · intro entry hentry
    unfold resolveStructure
    rw [if_pos rfl]
    show (match get_cache_entry cache root language_str with
      | some cached_entry => parse_cached_structure cached_entry.structureName StructureType.Maven
      | none =>
        match detect_structure w root language with
        | .ok st => st
        | .error _ => StructureType.Maven) = _
    rw [hentry]
  · intro hentry
    unfold resolveStructure
    rw [if_pos rfl]
    show (match get_cache_entry cache root language_str with
      | some cached_entry => parse_cached_structure cached_entry.structureName StructureType.Maven
      | none =>
        match detect_structure w root language with
        | .ok st => st
        | .error _ => StructureType.Maven) = _
    rw [hentry]

/-- Claim C2, witness: a cache hit yields the cached `Gradle` structure
even on the stale world, and a cache miss re-detects `Maven`. -/
theorem structure_resolution_cache_witness :
    resolveStructure staleJavaWorld [(chars "/p", [("Java", ⟨"JUnit", "Gradle", 100⟩)])]
        (some (chars "/p")) "Java" .Java .Maven = .Gradle ∧
      resolveStructure staleJavaWorld [] (some (chars "/p")) "Java" .Java .Maven = .Maven := by
  constructor
  · exact ((structure_resolution_cache staleJavaWorld _ _ _ _).1
      ⟨"JUnit", "Gradle", 100⟩ (by decide)).trans (by decide)
  · exact ((structure_resolution_cache staleJavaWorld _ _ _ _).2 (by decide)).trans (by decide)

/-! ## Structural lemmas about the generate pipeline -/

theorem generate_error {w : World} {src : List Char} {opts : GeneratorOptions}
    {e : TestsmithError} {w1 : World}
    (hprep : generatePrep w src opts.language opts.framework opts.structKind opts.create
      = (.error e, w1)) :
    generate w src opts = (.error e, w1) := by
  unfold generate
  rw [hprep]

theorem generate_already {w : World} {src : List Char} {opts : GeneratorOptions}
    {path : List Char} {line : Nat} {w1 : World}
    (hprep : generatePrep w src opts.language opts.framework opts.structKind opts.create
      = (.ok (.already path line), w1)) :
    generate w src opts = (.ok ⟨path, false, false, line⟩, w1) := by
  unfold generate
  rw [hprep]

theorem generate_toCreate {w : World} {src : List Char} {opts : GeneratorOptions}
    {path content : List Char} {line : Nat} {stk : StructureType} {w1 : World}
    (hprep : generatePrep w src opts.language opts.framework opts.structKind opts.create
      = (.ok (.toCreate path content line stk), w1)) :
    generate w src opts =
      if ¬ opts.dry_run then
        if stk = .SameFile then
          match fs_append_to_file w1 path content with
          | .ok w2 => (.ok ⟨path, true, opts.dry_run, line⟩, w2)
          | .error e => (.error e, w1)
        else (.ok ⟨path, true, opts.dry_run, line⟩, fs_write_file_new w1 path content)
      else (.ok ⟨path, true, opts.dry_run, line⟩, w1) := by
  unfold generate
  rw [hprep]

theorem generatePrep_world_eq (w : World) (src : List Char) (optLang : Option Language)
    (optFw : Option Framework) (optSt : StructureType) (create : Bool) :
    (generatePrep w src optLang optFw optSt create).2
      = (resolveLangFwSt w src optLang optFw optSt).2 := by
  unfold generatePrep
  rcases h : resolveLangFwSt w src optLang optFw optSt with ⟨res, w1⟩
  cases res with
  | error e => rfl
  | ok t => rcases t with ⟨l, f, st⟩; rfl

theorem resolveLangFwSt_world (w : World) (src : List Char) (optLang : Option Language)
    (optFw : Option Framework) (optSt : StructureType) :
    (resolveLangFwSt w src optLang optFw optSt).2 = w ∨
      ∃ cache', (resolveLangFwSt w src optLang optFw optSt).2 = save_cache w cache' := by
  simp only [resolveLangFwSt]
  split
  · left; rfl
  · split
    · left; rfl
    · split
      · right; exact ⟨_, rfl⟩
      · left; rfl

theorem generatePrep_memFiles (w : World) (src : List Char) (optLang : Option Language)
    (optFw : Option Framework) (optSt : StructureType) (create : Bool) :
    (generatePrep w src optLang optFw optSt create).2.memFiles = w.memFiles := by
  rw [generatePrep_world_eq]
  rcases resolveLangFwSt_world w src optLang optFw optSt with h | ⟨c', h⟩ <;> rw [h] <;> rfl

theorem generatePrep_osFiles (w : World) (src : List Char) (optLang : Option Language)
    (optFw : Option Framework) (optSt : StructureType) (create : Bool) :
    (generatePrep w src optLang optFw optSt create).2.osFiles = w.osFiles := by
  rw [generatePrep_world_eq]
  rcases resolveLangFwSt_world w src optLang optFw optSt with h | ⟨c', h⟩ <;> rw [h] <;> rfl

theorem generate_ok_prep {w : World} {src : List Char} {opts : GeneratorOptions}
    {r : GeneratorResult} {w' : World}
    (hrun : generate w src opts = (.ok r, w')) :
    ∃ out w1, generatePrep w src opts.language opts.framework opts.structKind opts.create
      = (.ok out, w1) := by
  unfold generate at hrun
  rcases h : generatePrep w src opts.language opts.framework opts.structKind opts.create
    with ⟨res, w1⟩
  rw [h] at hrun
  cases res with
  | error e =>
    have hrun' : ((Except.error e : Except TestsmithError GeneratorResult), w1)
        = (Except.ok r, w') := hrun
    simp at hrun'
  | ok out => exact ⟨out, w1, rfl⟩

theorem generate_world_cases {w : World} {src : List Char} {opts : GeneratorOptions}
    {r : GeneratorResult} {w' : World}
    (hrun : generate w src opts = (.ok r, w')) :
    ∃ out w1, generatePrep w src opts.language opts.framework opts.structKind opts.create
        = (.ok out, w1) ∧ w'.cacheStore = w1.cacheStore ∧
        (opts.dry_run = true → w' = w1) := by
  obtain ⟨out, w1, hprep⟩ := generate_ok_prep hrun
  refine ⟨out, w1, hprep, ?_⟩
  cases out with
  | already path line =>
    rw [generate_already hprep] at hrun
    have hw : w' = w1 := (congrArg Prod.snd hrun).symm
    exact ⟨by rw [hw], fun _ => hw⟩
  | toCreate path content line stk =>
    rw [generate_toCreate hprep] at hrun
    cases hdry : opts.dry_run with
    | true =>
      rw [hdry] at hrun
      rw [if_neg (fun hc => hc rfl)] at hrun
      have hw : w' = w1 := (congrArg Prod.snd hrun).symm
      exact ⟨by rw [hw], fun _ => hw⟩
    | false =>
      rw [hdry] at hrun
      rw [if_pos (by simp : ¬(false = true))] at hrun
      refine ⟨?_, fun hcontr => absurd hcontr (by simp)⟩
      by_cases hsk : stk = StructureType.SameFile
      · rw [if_pos hsk] at hrun
        rcases ha : fs_append_to_file w1 path content with e | w2
        · rw [ha] at hrun
          have hrun' : ((Except.error e : Except TestsmithError GeneratorResult), w1)
              = (Except.ok r, w') := hrun
          simp at hrun'
        · rw [ha] at hrun
          have hw : w' = w2 := congrArg Prod.snd hrun.symm
          have hw2 : w2.cacheStore = w1.cacheStore := by
            unfold fs_append_to_file at ha
            rcases hl : alookup path w1.memFiles with _ | existing
            · rw [hl] at ha; simp at ha
            · rw [hl] at ha
              have : Except.ok (World.mk w1.osFiles w1.osDirs
                  (ainsert path (existing ++ '\n' :: content) w1.memFiles) w1.cacheStore w1.now)
                  = Except.ok w2 := ha
              have := Except.ok.injEq _ _ |>.mp this
              rw [← this]
          rw [hw, hw2]
      · rw [if_neg hsk] at hrun
        have hw : w' = fs_write_file_new w1 path content := congrArg Prod.snd hrun.symm
        rw [hw]
        rfl

theorem resolveLangFwSt_some (w : World) (src : List Char) (lang : Language)
    (optFw : Option Framework) (optSt : StructureType) :
    resolveLangFwSt w src (some lang) optFw optSt
      = match resolveFramework w (load_cache w) (find_project_root w src lang)
          (languageName lang) src lang optFw with
        | .error e => (.error e, w)
        | .ok framework =>
          match find_project_root w src lang with
          | some root =>
            (.ok (lang, framework,
                resolveStructure w (load_cache w) (find_project_root w src lang)
                  (languageName lang) lang optSt),
              save_cache w (update_cache_entry (load_cache w) root (languageName lang)
                framework
                (resolveStructure w (load_cache w) (find_project_root w src lang)
                  (languageName lang) lang optSt) w.now))
          | none =>
            (.ok (lang, framework,
                resolveStructure w (load_cache w) (find_project_root w src lang)
                  (languageName lang) lang optSt), w) := rfl

theorem generatePrep_ok_resolve {w : World} {src : List Char} {optLang : Option Language}
    {optFw : Option Framework} {optSt : StructureType} {create : Bool}
    {out : PrepOutcome} {w1 : World}
    (hprep : generatePrep w src optLang optFw optSt create = (.ok out, w1)) :
    ∃ l f st, resolveLangFwSt w src optLang optFw optSt = (.ok (l, f, st), w1) ∧
      prepInspect w1 src l f st create = .ok out := by
  unfold generatePrep at hprep
  rcases h : resolveLangFwSt w src optLang optFw optSt with ⟨res, w2⟩
  rw [h] at hprep
  cases res with
  | error e =>
    have hprep' : ((Except.error e : Except TestsmithError PrepOutcome), w2)
        = (Except.ok out, w1) := hprep
    simp at hprep'
  | ok t =>
    rcases t with ⟨l, f, st⟩
    have hprep' : (prepInspect w2 src l f st create, w2)
        = ((Except.ok out : Except TestsmithError PrepOutcome), w1) := hprep
    have hw2 : w2 = w1 := congrArg Prod.snd hprep'
    exact ⟨l, f, st, by rw [hw2], by rw [← hw2]; exact congrArg Prod.fst hprep'⟩

theorem resolveLangFwSt_ok_root {w : World} {src : List Char} {lang : Language}
    {optFw : Option Framework} {optSt : StructureType}
    {l : Language} {f : Framework} {st : StructureType} {w1 : World} {root : List Char}
    (hres : resolveLangFwSt w src (some lang) optFw optSt = (.ok (l, f, st), w1))
    (hroot : find_project_root w src lang = some root) :
    l = lang ∧
      w1 = save_cache w
        (update_cache_entry (load_cache w) root (languageName lang) f st w.now) := by
  rw [resolveLangFwSt_some] at hres
  rcases hfw : resolveFramework w (load_cache w) (find_project_root w src lang)
      (languageName lang) src lang optFw with e | fw
  · rw [hfw] at hres
    have hres' : ((Except.error e : Except TestsmithError (Language × Framework × StructureType)), w)
        = (Except.ok (l, f, st), w1) := hres
    simp at hres'
  · rw [hfw, hroot] at hres
    have hres' :
        ((Except.ok (lang, fw,
            resolveStructure w (load_cache w) (some root) (languageName lang) lang optSt)
          : Except TestsmithError (Language × Framework × StructureType)),
          save_cache w (update_cache_entry (load_cache w) root (languageName lang) fw
            (resolveStructure w (load_cache w) (some root) (languageName lang) lang optSt)
            w.now))
        = (Except.ok (l, f, st), w1) := hres
    simp only [Prod.mk.injEq, Except.ok.injEq] at hres'
    obtain ⟨⟨h1, h2, h3⟩, h4⟩ := hres'
    exact ⟨h1.symm, by rw [← h4, h2, h3]⟩

/-- Claim C9: for every run that returns a result and whose project root was
found, the in-memory cache entry for (root, language) has been replaced with
the resolved framework and structure and the whole cache has been saved —
this happens before the dry-run flag is consulted, so a dry run still
performs the cache update and save, and the flag suppresses only the
test-file write (the collaborator filesystem is left untouched). -/
theorem cache_saved_before_dry_run (w : World) (src : List Char) (opts : GeneratorOptions)
    (r : GeneratorResult) (w' : World) (lang : Language) (root : List Char)
    (hl : opts.language = some lang) (hdry : opts.dry_run = true)
    (hroot : find_project_root w src lang = some root)
    (hrun : generate w src opts = (.ok r, w')) :
    (∃ fw st, w'.cacheStore
        = some (update_cache_entry (load_cache w) root (languageName lang) fw st w.now)) ∧
      w'.memFiles = w.memFiles := by
  obtain ⟨out, w1, hprep, hcs, hw⟩ := generate_world_cases hrun
  have hw1 : w' = w1 := hw hdry
  obtain ⟨l2, f2, st2, hres, _⟩ := generatePrep_ok_resolve hprep
  rw [hl] at hres
  obtain ⟨-, hsave⟩ := resolveLangFwSt_ok_root hres hroot
  refine ⟨⟨f2, st2, ?_⟩, ?_⟩
  · rw [hw1, hsave]; rfl
  · rw [hw1, hsave]; rfl

/-- A concrete world for the dry-run witnesses: a Rust project under `/p`
whose `lib.rs` exists in the collaborator filesystem and contains no test
module. -/
def rustLibWorld : World :=
  ⟨[(chars "/p/Cargo.toml", ⟨chars "[package]", some 50⟩)], [chars "/p", chars "/p/src"],
    [(chars "/p/src/lib.rs", chars "fn a() \x7b\x7d")], none, 123⟩

/-- Claim C9, witness: a concrete dry run still writes the resolved
(Native, SameFile) entry through to the cache store and leaves the
collaborator filesystem untouched. -/
theorem cache_saved_before_dry_run_witness :
    (∃ fw st, (save_cache rustLibWorld (update_cache_entry (load_cache rustLibWorld)
          (chars "/p") (languageName .Rust) .Native .SameFile rustLibWorld.now)).cacheStore
        = some (update_cache_entry (load_cache rustLibWorld) (chars "/p")
            (languageName .Rust) fw st rustLibWorld.now)) ∧
      (save_cache rustLibWorld (update_cache_entry (load_cache rustLibWorld)
          (chars "/p") (languageName .Rust) .Native .SameFile rustLibWorld.now)).memFiles
        = rustLibWorld.memFiles :=
  cache_saved_before_dry_run rustLibWorld (chars "/p/src/lib.rs")
    ⟨.SameFile, some .Rust, none, true, true⟩
    ⟨chars "/p/src/lib.rs", true, true, 8⟩
    (save_cache rustLibWorld (update_cache_entry (load_cache rustLibWorld)
      (chars "/p") (languageName .Rust) .Native .SameFile rustLibWorld.now))
    .Rust (chars "/p") rfl rfl (by decide) (by decide)

theorem resolve_test_path_sameFile {w : World} {src tp : List Char} {language : Language}
    (h : resolve_test_path w .SameFile src language = .ok tp) :
    tp = src ∧ fs_file_exists w src = true := by
  have h' : (if ¬ fs_file_exists w src = true then
      (Except.error (TestsmithError.FileNotFound src) : Except TestsmithError (List Char))
    else Except.ok src) = Except.ok tp := h
  split at h'
  · simp at h'
  next hc =>
    exact ⟨(Except.ok.inj h').symm, of_not_not hc⟩

theorem prepInspect_toCreate_resolver {w : World} {src : List Char} {language : Language}
    {framework : Framework} {structKind : StructureType} {create : Bool}
    {path content : List Char} {line : Nat} {stk : StructureType}
    (h : prepInspect w src language framework structKind create
      = .ok (.toCreate path content line stk)) :
    stk = structKind ∧ resolve_test_path w structKind src language = .ok path := by
  unfold prepInspect at h
  rcases heq : resolve_test_path w structKind src language with e | tp
  · rw [heq] at h
    simp at h
  · rw [heq] at h
    have h' : (match (if structKind = StructureType.SameFile then
        match fs_read_file w tp with
        | some content => (true, hasSubstr (chars "#[cfg(test)]") content)
        | none => (false, false)
      else (fs_file_exists w tp, false)) with
      | (test_exists, has_test_module) =>
        if test_exists ∧ has_test_module then
          Except.ok (PrepOutcome.already tp (find_test_line w tp))
        else if test_exists ∧ ¬ has_test_module ∧ structKind ≠ StructureType.SameFile then
          Except.ok (PrepOutcome.already tp (find_todo_line w tp))
        else if ¬ create then
          Except.error (TestsmithError.FileNotFound tp)
        else
          match get_generator language framework with
          | .error e => Except.error e
          | .ok generator =>
            match template_generate generator
                (buildContext w src tp language framework) with
            | .error e => Except.error e
            | .ok content =>
              Except.ok (PrepOutcome.toCreate tp content
                (creation_line w structKind tp content) structKind))
      = Except.ok (PrepOutcome.toCreate path content line stk) := h
    clear h
    repeat (any_goals split at h')
    all_goals simp at h'
    all_goals obtain ⟨h1, -, -, h4⟩ := h'
    all_goals exact ⟨h4.symm, by rw [h1]⟩

/-- Claim C4: a dry run that reaches the generation step leaves the
collaborator filesystem — and so the target test file's existence and
content — completely unchanged, while still returning, with the created
flag set, the test path and cursor line that the corresponding non-dry run
would have used. -/
theorem dry_run_frame (w : World) (src : List Char) (opts : GeneratorOptions)
    (r : GeneratorResult) (w' : World)
    (hdry : opts.dry_run = true)
    (hrun : generate w src opts = (.ok r, w'))
    (hcreated : r.created = true) :
    w'.memFiles = w.memFiles ∧
      ∃ r' w'', generate w src { opts with dry_run := false } = (.ok r', w'') ∧
        r'.test_file_path = r.test_file_path ∧ r'.line_number = r.line_number ∧
        r'.created = true := by
  obtain ⟨out, w1, hprep⟩ := generate_ok_prep hrun
  have hw1mem : w1.memFiles = w.memFiles := by
    have h2 : (generatePrep w src opts.language opts.framework opts.structKind
        opts.create).2 = w1 := congrArg Prod.snd hprep
    rw [← h2]
    exact generatePrep_memFiles w src opts.language opts.framework opts.structKind opts.create
  cases out with
  | already path line =>
    rw [generate_already hprep] at hrun
    have hr : r = ⟨path, false, false, line⟩ :=
      (Except.ok.inj (congrArg Prod.fst hrun)).symm
    rw [hr] at hcreated
    simp at hcreated
  | toCreate path content line stk =>
    rw [generate_toCreate hprep] at hrun
    rw [hdry, if_neg (fun hc => hc rfl)] at hrun
    have hr : r = ⟨path, true, true, line⟩ :=
      (Except.ok.inj (congrArg Prod.fst hrun)).symm
    have hw : w' = w1 := (congrArg Prod.snd hrun).symm
    refine ⟨by rw [hw]; exact hw1mem, ?_⟩
    have hprep' : generatePrep w src ({opts with dry_run := false}).language
        ({opts with dry_run := false}).framework ({opts with dry_run := false}).structKind
        ({opts with dry_run := false}).create
        = (.ok (.toCreate path content line stk), w1) := hprep
    have hgen := @generate_toCreate w src {opts with dry_run := false}
      path content line stk w1 hprep'
    rw [if_pos (show ¬(({opts with dry_run := false} : GeneratorOptions).dry_run = true)
      from by simp)] at hgen
    by_cases hsk : stk = StructureType.SameFile
    · rw [if_pos hsk] at hgen
      obtain ⟨l2, f2, st2, hres, hpi⟩ := generatePrep_ok_resolve hprep
      obtain ⟨hstk, hresolve⟩ := prepInspect_toCreate_resolver hpi
      have hst2 : st2 = StructureType.SameFile := hstk.symm.trans hsk
      rw [hst2] at hresolve
      obtain ⟨hpath, hex⟩ := resolve_test_path_sameFile hresolve
      obtain ⟨w2, hw2⟩ : ∃ w2, fs_append_to_file w1 path content = .ok w2 := by
        unfold fs_append_to_file
        rw [hpath]
        rcases hl : alookup src w1.memFiles with _ | ex
        · unfold fs_file_exists at hex
          rw [hl] at hex
          simp at hex
        · exact ⟨_, rfl⟩
      rw [hw2] at hgen
      exact ⟨⟨path, true, false, line⟩, w2, hgen, by rw [hr], by rw [hr], rfl⟩
    · rw [if_neg hsk] at hgen
      exact ⟨⟨path, true, false, line⟩, fs_write_file_new w1 path content, hgen,
        by rw [hr], by rw [hr], rfl⟩

/-- Claim C4, witness: the concrete Rust same-file dry run leaves the
collaborator filesystem unchanged, and the non-dry run on the same world
creates the test at the same path and cursor line. -/
theorem dry_run_frame_witness :
    (save_cache rustLibWorld (update_cache_entry (load_cache rustLibWorld)
        (chars "/p") (languageName .Rust) .Native .SameFile rustLibWorld.now)).memFiles
      = rustLibWorld.memFiles ∧
    ∃ r' w'', generate rustLibWorld (chars "/p/src/lib.rs")
        ⟨.SameFile, some .Rust, none, true, false⟩ = (.ok r', w'') ∧
      r'.test_file_path = (⟨chars "/p/src/lib.rs", true, true, 8⟩ :
        GeneratorResult).test_file_path ∧
      r'.line_number = (⟨chars "/p/src/lib.rs", true, true, 8⟩ :
        GeneratorResult).line_number ∧
      r'.created = true :=
  dry_run_frame rustLibWorld (chars "/p/src/lib.rs")
    ⟨.SameFile, some .Rust, none, true, true⟩
    ⟨chars "/p/src/lib.rs", true, true, 8⟩
    (save_cache rustLibWorld (update_cache_entry (load_cache rustLibWorld)
      (chars "/p") (languageName .Rust) .Native .SameFile rustLibWorld.now))
    rfl (by decide) rfl

theorem prepInspect_sameFile_noAnchor {w : World} {src c : List Char} (create : Bool)
    (hread : fs_read_file w src = some c)
    (hanchor : hasSubstr (chars "#[cfg(test)]") c = false) :
    prepInspect w src .Rust .Native .SameFile create
      = if ¬ create then .error (.FileNotFound src)
        else .ok (.toCreate src rust_native_generate
            (creation_line w .SameFile src rust_native_generate) .SameFile) := by
  have hex : fs_file_exists w src = true := by
    unfold fs_file_exists
    unfold fs_read_file at hread
    rw [hread]
    rfl
  have hrt : resolve_test_path w .SameFile src .Rust = .ok src := by
    show (if ¬ fs_file_exists w src = true then
        (Except.error (TestsmithError.FileNotFound src) : Except TestsmithError (List Char))
      else Except.ok src) = Except.ok src
    rw [if_neg (fun hc => hc hex)]
  unfold prepInspect
  rw [hrt]
  show (match (if (StructureType.SameFile : StructureType) = StructureType.SameFile then
      match fs_read_file w src with
      | some content => (true, hasSubstr (chars "#[cfg(test)]") content)
      | none => (false, false)
    else (fs_file_exists w src, false)) with
    | (test_exists, has_test_module) =>
      if test_exists ∧ has_test_module then
        Except.ok (PrepOutcome.already src (find_test_line w src))
      else if test_exists ∧ ¬ has_test_module ∧
          (StructureType.SameFile : StructureType) ≠ StructureType.SameFile then
        Except.ok (PrepOutcome.already src (find_todo_line w src))
      else if ¬ create then
        Except.error (TestsmithError.FileNotFound src)
      else
        match get_generator Language.Rust Framework.Native with
        | .error e => Except.error e
        | .ok generator =>
          match template_generate generator
              (buildContext w src src Language.Rust Framework.Native) with
          | .error e => Except.error e
          | .ok content =>
            Except.ok (PrepOutcome.toCreate src content
              (creation_line w StructureType.SameFile src content)
              StructureType.SameFile))
    = _
  rw [if_pos rfl, hread]
  show (if (true = true) ∧ (hasSubstr (chars "#[cfg(test)]") c = true) then
      Except.ok (PrepOutcome.already src (find_test_line w src))
    else if (true = true) ∧ ¬ (hasSubstr (chars "#[cfg(test)]") c = true) ∧
        (StructureType.SameFile : StructureType) ≠ StructureType.SameFile then
      Except.ok (PrepOutcome.already src (find_todo_line w src))
    else if ¬ create then
      Except.error (TestsmithError.FileNotFound src)
    else
      match get_generator Language.Rust Framework.Native with
      | .error e => Except.error e
      | .ok generator =>
        match template_generate generator
            (buildContext w src src Language.Rust Framework.Native) with
        | .error e => Except.error e
        | .ok content =>
          Except.ok (PrepOutcome.toCreate src content
            (creation_line w StructureType.SameFile src content)
            StructureType.SameFile))
    = _
  rw [hanchor]
  rw [if_neg (by simp), if_neg (by simp)]
  rfl

/-- Claim C8: a run whose resolved structure is SameFile, whose resolved
test path (the source file itself) exists, and whose content lacks the
`#[cfg(test)]` anchor takes the generation path: with `create` enabled and
`dry_run` disabled it appends the generated test module to the existing
file and returns a created result, and with `create` disabled it fails with
`FileNotFound`. -/
theorem same_file_no_anchor_generation (w : World) (src : List Char)
    (opts : GeneratorOptions) (c : List Char)
    (hlang : opts.language = some .Rust)
    (hfw : resolveFramework w (load_cache w) (find_project_root w src .Rust)
        (languageName .Rust) src .Rust opts.framework = .ok .Native)
    (hst : resolveStructure w (load_cache w) (find_project_root w src .Rust)
        (languageName .Rust) .Rust opts.structKind = .SameFile)
    (hread : fs_read_file w src = some c)
    (hanchor : hasSubstr (chars "#[cfg(test)]") c = false) :
    (opts.create = true → opts.dry_run = false →
      ∃ line w2, generate w src opts = (.ok ⟨src, true, false, line⟩, w2) ∧
        w2.memFiles = ainsert src (c ++ '\n' :: rust_native_generate) w.memFiles) ∧
    (opts.create = false →
      (generate w src opts).1 = .error (.FileNotFound src)) := by
  obtain ⟨w1, hres, hw1mem⟩ : ∃ w1,
      resolveLangFwSt w src opts.language opts.framework opts.structKind
        = (.ok (.Rust, .Native, .SameFile), w1) ∧ w1.memFiles = w.memFiles := by
    rcases hroot : find_project_root w src .Rust with _ | root
    · refine ⟨w, ?_, rfl⟩
      rw [hlang, resolveLangFwSt_some, hfw, hst, hroot]
    · refine ⟨save_cache w (update_cache_entry (load_cache w) root (languageName .Rust)
        .Native .SameFile w.now), ?_, rfl⟩
      rw [hlang, resolveLangFwSt_some, hfw, hst, hroot]
  have hprep : generatePrep w src opts.language opts.framework opts.structKind opts.create
      = (prepInspect w1 src .Rust .Native .SameFile opts.create, w1) := by
    unfold generatePrep
    rw [hres]
  have hread1 : fs_read_file w1 src = some c := by
    unfold fs_read_file
    rw [hw1mem]
    exact hread
  have hpi := prepInspect_sameFile_noAnchor opts.create hread1 hanchor
  constructor
  · intro hcreate hdry
    have hif : (if ¬ opts.create then
          (Except.error (TestsmithError.FileNotFound src) : Except TestsmithError PrepOutcome)
        else .ok (.toCreate src rust_native_generate
            (creation_line w1 .SameFile src rust_native_generate) .SameFile))
        = .ok (.toCreate src rust_native_generate
            (creation_line w1 .SameFile src rust_native_generate) .SameFile) := by
      rw [hcreate]
      simp
    have hpi' := hpi.trans hif
    rw [hpi'] at hprep
    have hgen := generate_toCreate hprep
    rw [hdry, if_pos (by simp : ¬(false = true)), if_pos rfl] at hgen
    have happ : fs_append_to_file w1 src rust_native_generate
        = .ok { w1 with
            memFiles := ainsert src (c ++ '\n' :: rust_native_generate) w1.memFiles } := by
      unfold fs_append_to_file
      rw [show alookup src w1.memFiles = some c from by rw [hw1mem]; exact hread]
    rw [happ] at hgen
    refine ⟨creation_line w1 .SameFile src rust_native_generate,
      { w1 with memFiles := ainsert src (c ++ '\n' :: rust_native_generate) w1.memFiles },
      ?_, ?_⟩
    · rw [hgen]
    · show ainsert src (c ++ '\n' :: rust_native_generate) w1.memFiles
        = ainsert src (c ++ '\n' :: rust_native_generate) w.memFiles
      rw [hw1mem]
  · intro hcreate
    have hif : (if ¬ opts.create then
          (Except.error (TestsmithError.FileNotFound src) : Except TestsmithError PrepOutcome)
        else .ok (.toCreate src rust_native_generate
            (creation_line w1 .SameFile src rust_native_generate) .SameFile))
        = .error (.FileNotFound src) := by
      rw [hcreate]
      simp
    have hpi' := hpi.trans hif
    rw [hpi'] at hprep
    rw [generate_error hprep]

/-- Claim C8, witness: on the concrete Rust project, the create run appends
the test module to `lib.rs` and reports it created, and the no-create run
fails with `FileNotFound`. -/
theorem same_file_no_anchor_generation_witness :
    (∃ line w2, generate rustLibWorld (chars "/p/src/lib.rs")
        ⟨.SameFile, some .Rust, none, true, false⟩
        = (.ok ⟨chars "/p/src/lib.rs", true, false, line⟩, w2) ∧
      w2.memFiles = ainsert (chars "/p/src/lib.rs")
        (chars "fn a() \x7b\x7d" ++ '\n' :: rust_native_generate) rustLibWorld.memFiles) ∧
    (generate rustLibWorld (chars "/p/src/lib.rs")
        ⟨.SameFile, some .Rust, none, false, false⟩).1
      = .error (.FileNotFound (chars "/p/src/lib.rs")) := by
  constructor
  · exact (same_file_no_anchor_generation rustLibWorld (chars "/p/src/lib.rs")
      ⟨.SameFile, some .Rust, none, true, false⟩ (chars "fn a() \x7b\x7d")
      rfl (by decide) (by decide) (by decide) (by decide)).1 rfl rfl
  · exact (same_file_no_anchor_generation rustLibWorld (chars "/p/src/lib.rs")
      ⟨.SameFile, some .Rust, none, false, false⟩ (chars "fn a() \x7b\x7d")
      rfl (by decide) (by decide) (by decide) (by decide)).2 rfl

end Testsmith
